import Mathlib

/-!
# Verification of the LightWatch_WEB UI-synchronization primitives

This file gives a shallow embedding of the reusable logic of the
LightWatch_WEB repository (condition pollers, fuzzy text matcher,
paginated table reader, virtualized list selector, login gate,
pagination clicks) and proves or refutes the frozen claims about them.

Modelling conventions:
* Wall-clock time is measured in milliseconds as a rational number.
  Predicate evaluation is instantaneous; `time.sleep(d)` advances the
  clock by exactly `d`.  `random.uniform(0, c)` is modelled by an
  arbitrary oracle `jit : Nat -> Rat` clamped into `[0, c]`, which is
  exactly the guarantee `random.uniform` gives.
* A Python zero-argument predicate re-evaluated over time is modelled as
  `cond : Nat -> CondOutcome`, giving the outcome of its n-th invocation
  (a boolean, or a raised exception rendered as a message string).
* Loops whose termination is not structural (Python `while ...`) are
  given an explicit fuel argument and return `Option`; `none` means the
  loop is still running after `fuel` iterations.  Top-level wrappers
  pass a fuel provably larger than the number of iterations the loop
  can perform within its time budget.
* Result constructors carry the loop state at the moment of return
  (elapsed time, attempt count, last swallowed exception) as ghost
  data; the separate message functions say which of those fields the
  raised Python message actually reports.
-/

/-! ### Definitions -/

/-- Outcome of one invocation of a zero-argument Python predicate:
either it returns a value coerced to `bool`, or it raises an exception
rendered as a message string. -/
inductive CondOutcome where
  | ok (b : Bool)
  | exc (msg : String)
deriving DecidableEq, Repr

/-- The exception swallowed by the poll loop at the most recent
predicate invocation, given that `k` invocations happened:
`some e` if invocation `k-1` raised `e`, `none` if it returned a
boolean (the loops reset `last_exc = None` in that case). -/
def lastSwallowed (cond : ℕ → CondOutcome) (k : ℕ) : Option String :=
  match cond (k - 1) with
  | .exc e => some e
  | .ok _ => none

/-- `sub` occurs as a contiguous substring of `s`. -/
def strContains (s sub : String) : Prop := ∃ p q, s = p ++ sub ++ q
namespace AlarmsAndEvents

/-- Result of the simple poller `AlarmsAndEvents.wait_until`
(textually identical to `ServiceList.wait_until`): silent return or a
raised `AssertionError`.  `elapsed_ms`, `attempts` and `lastExc` are
the loop state at that moment (ghost data; see
`simpleTimeoutMessage` for what the raised message reports). -/
inductive SimpleWaitResult where
  | success (elapsed_ms : ℚ)
  | timeout (elapsed_ms : ℚ) (attempts : ℕ) (lastExc : Option String)
deriving DecidableEq, Repr

/-- The raised message of the simple `wait_until`
(`src/Pages/alarms_and_events.py` lines 51-53): it reports the timeout
budget and, when present, the last swallowed exception; it reports no
attempt count and no elapsed time. -/
def simpleTimeoutMessage (timeout_ms : ℤ) (lastExc : Option String) : String :=
  match lastExc with
  | some e => "Condition not met within " ++ toString timeout_ms ++ "ms. Last error: " ++ e
  | none => "Condition not met within " ++ toString timeout_ms ++ "ms."

/-- Loop body of `AlarmsAndEvents.wait_until` (lines 34-54).
State: `k` = number of predicate calls made so far, `now` = elapsed ms,
`lastExc` = last swallowed exception.  Each iteration checks
`time.time() < end_time`, evaluates the predicate (returning on truth,
before any sleep), and sleeps `interval_ms`. -/
def waitUntilSimpleAux (cond : ℕ → CondOutcome) (T i : ℚ) :
    ℕ → ℕ → ℚ → Option String → Option SimpleWaitResult
  | 0, _, _, _ => none
  | fuel + 1, k, now, lastExc =>
    if now < T then
      match cond k with
      | .ok true => some (.success now)
      | .ok false => waitUntilSimpleAux cond T i fuel (k + 1) (now + i) none
      | .exc e => waitUntilSimpleAux cond T i fuel (k + 1) (now + i) (some e)
    else
      some (.timeout now k lastExc)

/-- `AlarmsAndEvents.wait_until(condition, timeout_ms, interval_ms)`
(`src/Pages/alarms_and_events.py` lines 34-54, identical to
`ServiceList.wait_until`, lines 29-48): polls `condition` every
`interval_ms` until it returns true or `timeout_ms` elapses, swallowing
exceptions; raises `AssertionError` on timeout.  The fuel
`⌈T/i⌉ + 1` covers every iteration the loop can perform. -/
def wait_until (cond : ℕ → CondOutcome) (timeout_ms interval_ms : ℤ) :
    Option SimpleWaitResult :=
  waitUntilSimpleAux cond (timeout_ms : ℚ) (interval_ms : ℚ)
    ((⌈(timeout_ms : ℚ) / (interval_ms : ℚ)⌉).toNat + 1) 0 0 none
end AlarmsAndEvents
namespace DomainManagement

/-- Result of the advanced poller `DomainManagement.wait_until`:
a `ValueError` on invalid arguments, a silent return, or a raised
`AssertionError`.  `elapsed_ms`, `attempts` and `lastExc` are the loop
state at that moment; unlike the simple variant, `timeoutMessage`
really reports all three. -/
inductive WaitResult where
  | valueError (param : String)
  | success (elapsed_ms : ℚ) (attempts : ℕ)
  | timeout (elapsed_ms : ℚ) (attempts : ℕ) (lastExc : Option String)
deriving DecidableEq, Repr

/-- The raised message of the advanced `wait_until`
(`src/Pages/domain_management.py` lines 115-122): elapsed time,
description, attempt count, and the last swallowed exception when
present (the optional extra debug suffix is taken empty here). -/
def timeoutMessage (desc : String) (elapsed_ms : ℚ) (attempts : ℕ)
    (lastExc : Option String) : String :=
  match lastExc with
  | some e =>
    "wait_until timeout after " ++ toString elapsed_ms ++ "ms waiting for " ++ desc ++
      ". Attempts=" ++ toString attempts ++ ". Last error: " ++ e
  | none =>
    "wait_until timeout after " ++ toString elapsed_ms ++ "ms waiting for " ++ desc ++
      ". Attempts=" ++ toString attempts ++ "."

/-- Cap of the random sleep jitter, in ms: `min(0.05, base_sleep_s * 0.25)`
seconds (`src/Pages/domain_management.py` line 96). -/
def jitterCap (i : ℚ) : ℚ := min 50 (i / 4)

/-- Loop body of `DomainManagement.wait_until` (lines 71-99).
State: `now` = elapsed ms, `attempts` = predicate calls made so far,
`lastExc` = last swallowed exception, `consec` = current run of
consecutive successes.  Each iteration breaks once the deadline has
passed, evaluates the predicate, returns after `stable` consecutive
successes, and otherwise sleeps `interval + jitter` clamped to the
remaining budget (breaking if the computed sleep is nonpositive). -/
def waitUntilAux (cond : ℕ → CondOutcome) (jit : ℕ → ℚ) (T i : ℚ) (stable : ℤ) :
    ℕ → ℚ → ℕ → Option String → ℕ → Option WaitResult
  | 0, _, _, _, _ => none
  | fuel + 1, now, attempts, lastExc, consec =>
    if T ≤ now then some (.timeout now attempts lastExc)
    else
      let step : Option String → ℕ → Option WaitResult := fun lastExc' consec' =>
        let remaining : ℚ := max 0 (T - now)
        let j : ℚ := min (max (jit attempts) 0) (jitterCap i)
        let sleepq : ℚ := min remaining (i + j)
        if sleepq ≤ 0 then some (.timeout now (attempts + 1) lastExc')
        else waitUntilAux cond jit T i stable fuel (now + sleepq) (attempts + 1) lastExc' consec'
      match cond attempts with
      | .ok true =>
        if stable ≤ (consec : ℤ) + 1 then some (.success now (attempts + 1))
        else step none (consec + 1)
      | .ok false => step none 0
      | .exc e => step (some e) 0

/-- `DomainManagement.wait_until(condition, timeout_ms, interval_ms,
stable_successes=...)` (`src/Pages/domain_management.py` lines 53-122):
validates its arguments, then polls until `stable_successes`
consecutive truths or timeout, sleeping `interval + uniform-jitter`
(never past the deadline) between polls.  The fuel `⌊T/i⌋ + 2` covers
every iteration the loop can perform. -/
def wait_until (cond : ℕ → CondOutcome) (jit : ℕ → ℚ)
    (timeout_ms interval_ms stable_successes : ℤ) : Option WaitResult :=
  if timeout_ms ≤ 0 then some (.valueError "timeout_ms must be > 0")
  else if interval_ms ≤ 0 then some (.valueError "interval_ms must be > 0")
  else if stable_successes ≤ 0 then some (.valueError "stable_successes must be >= 1")
  else
    waitUntilAux cond jit (timeout_ms : ℚ) (interval_ms : ℚ) stable_successes
      ((timeout_ms / interval_ms).toNat + 2) 0 0 none 0
end DomainManagement

/-- ASCII whitespace matched by Python `\s` and stripped by
`str.strip()` (the Unicode extras are not needed for these claims). -/
def isPyWs (c : Char) : Bool :=
  c == ' ' || c == '\t' || c == '\n' || c == '\r' || c == '\x0b' || c == '\x0c'

/-- `str.strip()`: remove leading and trailing whitespace. -/
def pyStrip (s : List Char) : List Char :=
  ((s.dropWhile isPyWs).reverse.dropWhile isPyWs).reverse

/-- The characters escaped by `re.escape` since Python 3.7
(`re._special_chars_map`); every other character, including the
forward slash, is left unchanged. -/
def reSpecial (c : Char) : Bool :=
  c ∈ ['(', ')', '[', ']', '\x7b', '\x7d', '?', '*', '+', '-', '|', '^', '$',
    '\\', '.', '&', '~', '#', ' ', '\t', '\n', '\r', '\x0b', '\x0c']

/-- `re.escape(s)` for Python 3.7+: prefix every special character with
a backslash. -/
def pyReEscape (s : List Char) : List Char :=
  s.foldr (fun c acc => if reSpecial c then '\\' :: c :: acc else c :: acc) []

/-- `str.replace(pat, rep)`: replace every non-overlapping occurrence
of `pat`, scanning left to right.  The fuel (at least the length of
the scanned list) makes the recursion structural; each step consumes
at least one character. -/
def listReplace (pat rep : List Char) : ℕ → List Char → List Char
  | _, [] => []
  | 0, s => s
  | fuel + 1, c :: rest =>
    if pat.isPrefixOf (c :: rest) && !pat.isEmpty then
      rep ++ listReplace pat rep fuel ((c :: rest).drop pat.length)
    else
      c :: listReplace pat rep fuel rest

/-- `AlarmsAndEvents.nav_text_regex`
(`src/Pages/alarms_and_events.py` lines 145-162, identical to
`DomainManagement.nav_text_regex`, `domain_management.py` lines
177-194): strip the name, `re.escape` it, then rewrite the escape
sequences `\/ -> \s*/\s*`, `\- -> [-–]`, `\  -> \s+` in the pattern
string.  Returns the pattern as a character list. -/
def nav_text_regex (element_name : String) : List Char :=
  let s := pyStrip element_name.data
  let esc := pyReEscape s
  let esc := listReplace ['\\', '/'] "\\s*/\\s*".data (esc.length + 1) esc
  let esc := listReplace ['\\', '-'] "[-–]".data (esc.length + 1) esc
  let esc := listReplace ['\\', ' '] "\\s+".data (esc.length + 1) esc
  esc

/-- Token of the tiny regex sublanguage that `nav_text_regex` can
produce: literal characters, a character class of plain characters,
and `\s` with an optional `*` or `+` quantifier. -/
inductive RTok where
  | lit (c : Char)
  | cls (cs : List Char)
  | wsOne
  | wsStar
  | wsPlus
deriving DecidableEq, Repr

/-- Scan a character class `[...]` up to the closing bracket, returning
its member characters and the remaining pattern (all members are plain
characters in the patterns at hand; an unterminated or empty class is
a parse error). -/
def parseClassAux : List Char → List Char → Option (List Char × List Char)
  | _, [] => none
  | acc, c :: rest =>
    if c = ']' then
      if acc.isEmpty then none else some (acc.reverse, rest)
    else
      parseClassAux (c :: acc) rest

/-- Parse a pattern produced by `nav_text_regex` into tokens:
`\s*`, `\s+`, `\s`, `\c` (escaped literal), `[...]` classes, and plain
literal characters; a bare quantifier or bracket is a parse error.
Fuel at least the pattern length makes the recursion structural. -/
def parseTokens : ℕ → List Char → Option (List RTok)
  | _, [] => some []
  | 0, _ :: _ => none
  | fuel + 1, cs =>
    match cs with
    | '\\' :: 's' :: '*' :: rest => (parseTokens fuel rest).map (RTok.wsStar :: ·)
    | '\\' :: 's' :: '+' :: rest => (parseTokens fuel rest).map (RTok.wsPlus :: ·)
    | '\\' :: 's' :: rest => (parseTokens fuel rest).map (RTok.wsOne :: ·)
    | '\\' :: c :: rest => (parseTokens fuel rest).map (RTok.lit c :: ·)
    | ['\\'] => none
    | '[' :: rest =>
      match parseClassAux [] rest with
      | some (cls, rest2) => (parseTokens fuel rest2).map (RTok.cls cls :: ·)
      | none => none
    | '*' :: _ => none
    | '+' :: _ => none
    | ']' :: _ => none
    | c :: rest => (parseTokens fuel rest).map (RTok.lit c :: ·)
    | [] => some []

/-- One-character token semantics. -/
def tokMatchesChar : RTok → Char → Bool
  | .lit c, d => c == d
  | .cls cs, d => cs.contains d
  | .wsOne, d => isPyWs d
  | .wsStar, d => isPyWs d
  | .wsPlus, d => isPyWs d

/-- Backtracking matcher: does some prefix of `cs` match the token
list?  Every recursive call strictly decreases
`ts.length + cs.length`, so fuel at least that sum plus one makes the
recursion structural and the wrapper total. -/
def matchHere : ℕ → List RTok → List Char → Bool
  | 0, _, _ => false
  | _ + 1, [], _ => true
  | fuel + 1, .wsStar :: ts, cs =>
    matchHere fuel ts cs ||
      (match cs with
       | [] => false
       | d :: rest => isPyWs d && matchHere fuel (.wsStar :: ts) rest)
  | fuel + 1, .wsPlus :: ts, cs =>
    (match cs with
     | [] => false
     | d :: rest =>
       isPyWs d && (matchHere fuel ts rest || matchHere fuel (.wsPlus :: ts) rest))
  | _ + 1, _ :: _, [] => false
  | fuel + 1, t :: ts, d :: rest => tokMatchesChar t d && matchHere fuel ts rest

/-- `re.search` over the token list: does the pattern match starting at
some position of `cs`? -/
def searchTokens (ts : List RTok) : List Char → Bool
  | [] => matchHere (ts.length + 1) ts []
  | c :: rest =>
    matchHere (ts.length + (c :: rest).length + 1) ts (c :: rest) || searchTokens ts rest

/-- `pattern.search(text)` for a pattern string produced by
`nav_text_regex`: parse it and search; an unparseable pattern never
matches (does not arise for the patterns at hand). -/
def regexSearches (pat : List Char) (text : String) : Bool :=
  match parseTokens (pat.length + 1) pat with
  | some ts => searchTokens ts text.data
  | none => false

/-- Whitespace-collapsing scanner: `re.sub(r"\s+", " ", s)` restricted
to strings with no leading whitespace run lost (the flag records
whether the previous character was whitespace, so that a run emits one
single space). -/
def collapseWsAux : Bool → List Char → List Char
  | _, [] => []
  | prevWs, c :: rest =>
    if isPyWs c then
      if prevWs then collapseWsAux true rest
      else ' ' :: collapseWsAux true rest
    else c :: collapseWsAux false rest

/-- `_clean(s)` as defined identically in `ServiceList`,
`AlarmsAndEvents` and the other page classes:
`re.sub(r"\s+", " ", (s or "").strip())`. -/
def cleanStr (s : String) : String :=
  String.mk (collapseWsAux false (pyStrip s.data))

/-- Python `str.split()` (no separator): split on whitespace runs,
discarding empty pieces; `acc` holds the current word reversed. -/
def pyWordsAux : List Char → List Char → List (List Char)
  | acc, [] => if acc.isEmpty then [] else [acc.reverse]
  | acc, c :: rest =>
    if isPyWs c then
      if acc.isEmpty then pyWordsAux [] rest
      else acc.reverse :: pyWordsAux [] rest
    else pyWordsAux (c :: acc) rest

/-- Python `str.split()` on a `String`. -/
def pyWords (s : String) : List String :=
  (pyWordsAux [] s.data).map String.mk

/-- Lexicographic comparison of character lists by code point, the
order Python uses on strings. -/
def charListLe : List Char → List Char → Bool
  | [], _ => true
  | _ :: _, [] => false
  | c :: cs, d :: ds => if c < d then true else if d < c then false else charListLe cs ds

/-- Python string `<=`. -/
def strLe (a b : String) : Bool := charListLe a.data b.data

/-- Insert into a key-sorted association list. -/
def insertSortedByKey {α : Type} (p : String × α) : List (String × α) → List (String × α)
  | [] => [p]
  | q :: rest => if strLe p.1 q.1 then p :: q :: rest else q :: insertSortedByKey p rest

/-- Python `sorted(d.items())` when all keys are distinct: stable sort
of the pairs by key. -/
def sortByKey {α : Type} : List (String × α) → List (String × α)
  | [] => []
  | p :: rest => insertSortedByKey p (sortByKey rest)
namespace ServiceList

/-- `ServiceList.click_next` (`src/Pages/service_list.py` lines
997-1015), given the `class` attribute of the Next page-item: if the
token `disabled` occurs in `cls.split()` it returns `False` without
clicking; otherwise it clicks the control and returns `True`.  The
first component is the returned boolean, the second records whether a
click was performed. -/
def click_next (nextItemClass : String) : Bool × Bool :=
  if "disabled" ∈ pyWords nextItemClass then (false, false)
  else (true, true)

/-- `ServiceList.click_previous` (lines 977-995): same logic on the
Previous page-item. -/
def click_previous (prevItemClass : String) : Bool × Bool :=
  if "disabled" ∈ pyWords prevItemClass then (false, false)
  else (true, true)

/-- `ServiceList.extract_headers` (lines 1057-1068): clean the header
cell texts and drop the empty ones (the `th`-fallback branch behaves
the same on its own inputs and is omitted). -/
def extract_headers (headerTexts : List String) : List String :=
  (headerTexts.map cleanStr).filter (fun h => h ≠ "")

/-- Python dict assignment `d[k] = v` on an insertion-ordered
association list: an existing key keeps its position and gets the new
value, a new key is appended. -/
def insertReplace (k v : String) : List (String × String) → List (String × String)
  | [] => [(k, v)]
  | (k2, v2) :: rest =>
    if k2 = k then (k2, v) :: rest else (k2, v2) :: insertReplace k v rest

/-- Build one row dict: `for c_idx, h in enumerate(headers):
row_dict[h] = cells[c_idx] if c_idx < len(cells) else ""`. -/
def rowDictAux (cells : List String) : List (String × String) → ℕ → List String →
    List (String × String)
  | acc, _, [] => acc
  | acc, idx, h :: hs => rowDictAux cells (insertReplace h (cells.getD idx "") acc) (idx + 1) hs

/-- `ServiceList.read_table_as_dicts` (lines 1070-1090) on the model:
headers are extracted once; every row maps header names to its cleaned
cell texts, padding missing cells with the empty string. -/
def read_table_as_dicts (headers : List String) (rows : List (List String)) :
    List (List (String × String)) :=
  rows.map (fun r => rowDictAux (r.map cleanStr) [] 0 headers)

/-- The deduplication key of `read_all_pages_from_table` (line 203):
`tuple((k, self._clean(str(v))) for k, v in row.items())` -- the
(column, cleaned value) pairs in dict insertion order, NOT sorted. -/
def rowKey (row : List (String × String)) : List (String × String) :=
  row.map (fun p => (p.1, cleanStr p.2))

/-- The key the spec describes instead: `Modelled from the spec:` the
"full sorted (column, value) tuple set" of the row, i.e. the same
pairs ordered by column name. -/
def specSortedRowKey (row : List (String × String)) : List (String × String) :=
  sortByKey (row.map (fun p => (p.1, cleanStr p.2)))

/-- Accumulate one page of rows into the deduplicating collection:
rows whose key is already in `seen` are skipped, others are appended
in order. -/
def accumRows (page : List (List (String × String))) :
    List (List (String × String)) × List (List (String × String)) →
    List (List (String × String)) × List (List (String × String)) :=
  fun sa =>
    page.foldl
      (fun (sa : _ × _) row =>
        if rowKey row ∈ sa.1 then sa
        else (rowKey row :: sa.1, sa.2 ++ [row]))
      sa

/-- The DOM state the paginated reader observes, indexed by an
abstract page-state `s` (mutated only by clicking Next, which moves
the state to `nextTarget s`).  Conventions: `activeTextAt` is the text
of the active page link (the empty string when the pager or the active
link is missing); `firstRowTextAt` is the inner text of the first
`tbody tr` (the empty string when there are no rows). -/
structure TableWorld where
  headerTexts : List String
  cellsAt : ℕ → List (List String)
  activeTextAt : ℕ → String
  firstRowTextAt : ℕ → String
  pagerPresent : Bool
  nextClassAt : ℕ → String
  nextTarget : ℕ → ℕ

/-- `pager_active_page_text()` (lines 181-187): cleaned active page
link text, or the empty string without a pager. -/
def pagerActiveText (w : TableWorld) (s : ℕ) : String :=
  if w.pagerPresent then cleanStr (w.activeTextAt s) else ""

/-- `first_row_fingerprint()` (lines 189-193): cleaned first row inner
text. -/
def firstRowFingerprint (w : TableWorld) (s : ℕ) : String :=
  cleanStr (w.firstRowTextAt s)

/-- Result of `read_all_pages_from_table`: the accumulated row dicts,
or a raised `AssertionError` (from the inner `wait_until`). -/
inductive ReadResult where
  | ok (rows : List (List (String × String)))
  | error (msg : String)
deriving DecidableEq, Repr

/-- Loop body of `ServiceList.read_all_pages_from_table`
(`src/Pages/service_list.py` lines 175-234).  Each iteration reads and
accumulates the current page, breaks when the pager is absent or
`click_next` returns `False` (Next carries the `disabled` class), and
otherwise clicks Next and waits until the active-page text or the
first-row fingerprint is nonempty and changed -- in this synchronous
model the click takes effect immediately, so the awaited condition is
constant: if it is false the `wait_until` raises after its timeout.
The Python loop is `while True`; `none` means it is still running
after `fuel` iterations. -/
def readAllPagesAux (w : TableWorld) (timeout : ℤ) :
    ℕ → ℕ → List (List (String × String)) → List (List (String × String)) →
    Option ReadResult
  | 0, _, _, _ => none
  | fuel + 1, s, seen, acc =>
    let pageRows := read_table_as_dicts (extract_headers w.headerTexts) (w.cellsAt s)
    let sa := accumRows pageRows (seen, acc)
    if !w.pagerPresent then some (.ok sa.2)
    else
      let beforePage := pagerActiveText w s
      let beforeFp := firstRowFingerprint w s
      if (click_next (w.nextClassAt s)).1 = false then some (.ok sa.2)
      else
        let s' := w.nextTarget s
        let afterPage := pagerActiveText w s'
        let afterFp := firstRowFingerprint w s'
        if (afterPage ≠ "" ∧ afterPage ≠ beforePage) ∨ (afterFp ≠ "" ∧ afterFp ≠ beforeFp)
        then readAllPagesAux w timeout fuel s' sa.1 sa.2
        else some (.error (AlarmsAndEvents.simpleTimeoutMessage timeout none))

/-- `ServiceList.read_all_pages_from_table(table, timeout)`: run the
loop from page-state `0` with empty accumulators. -/
def read_all_pages_from_table (w : TableWorld) (timeout : ℤ) (fuel : ℕ) :
    Option ReadResult :=
  readAllPagesAux w timeout fuel 0 [] []
end ServiceList

/-- A concrete stuck table: one row, an enabled Next control whose
click leaves the page-state unchanged. -/
def stuckWorld : ServiceList.TableWorld where
  headerTexts := ["H"]
  cellsAt := fun _ => [["x"]]
  activeTextAt := fun _ => "1"
  firstRowTextAt := fun _ => "x"
  pagerPresent := true
  nextClassAt := fun _ => "page-item"
  nextTarget := fun s => s
namespace ServiceList

/-- The row dicts of every page of a table, in page order. -/
def pagesDicts (w : TableWorld) (pages : List (List (List String))) :
    List (List (List (String × String))) :=
  pages.map (fun p => read_table_as_dicts (extract_headers w.headerTexts) p)
end ServiceList

/-- A concrete two-page table (one row per page, two columns). -/
def twoPageWorld : ServiceList.TableWorld where
  headerTexts := ["H1", "H2"]
  cellsAt := fun s => if s = 0 then [["a1", "a2"]] else [["b1", "b2"]]
  activeTextAt := fun s => if s = 0 then "1" else "2"
  firstRowTextAt := fun s => if s = 0 then "a1 a2" else "b1 b2"
  pagerPresent := true
  nextClassAt := fun s => if s = 0 then "page-item" else "page-item disabled"
  nextTarget := fun s => s + 1

/-- The pages of `twoPageWorld` as data. -/
def twoPages : List (List (List String)) := [[["a1", "a2"]], [["b1", "b2"]]]

/-- A cyclic table: Next is never disabled and every click flips the
page content and the active-page label, so the change-wait always
succeeds. -/
def cycWorld : ServiceList.TableWorld where
  headerTexts := ["H"]
  cellsAt := fun s => if s % 2 = 0 then [["a"]] else [["b"]]
  activeTextAt := fun s => if s % 2 = 0 then "1" else "2"
  firstRowTextAt := fun s => if s % 2 = 0 then "a" else "b"
  pagerPresent := true
  nextClassAt := fun _ => "page-item"
  nextTarget := fun s => s + 1
namespace AlarmsAndEvents

/-- A parsed table cell of `get_all_events`: text columns hold cleaned
strings, the Service-affecting column holds a boolean. -/
inductive EVal where
  | s (v : String)
  | b (v : Bool)
deriving DecidableEq, Repr

/-- The DOM state `get_all_events` observes, indexed by an abstract
page-state: the parsed rows of the current tbody, the raw tbody inner
text used as the change fingerprint, and the Next button (absence,
disabled state -- via `is_disabled` or its class/aria fallback -- and
click effect). -/
structure EventsWorld where
  rowsAt : ℕ → List (List (String × EVal))
  snapshotAt : ℕ → String
  nextPresent : Bool
  nextDisabledAt : ℕ → Bool
  nextTarget : ℕ → ℕ

/-- The deduplication key of `get_all_events` (line 1616):
`tuple(sorted(row.items()))` -- the dict items sorted by column name
(keys of one dict are distinct, so the tuple order is decided by the
keys). -/
def eKey (r : List (String × EVal)) : List (String × EVal) := sortByKey r

/-- `add_unique(rows)` (lines 1617-1622): append rows whose sorted key
has not been seen. -/
def eAccum (page : List (List (String × EVal))) :
    List (List (String × EVal)) × List (List (String × EVal)) →
    List (List (String × EVal)) × List (List (String × EVal)) :=
  fun sa =>
    page.foldl
      (fun (sa : _ × _) row =>
        if eKey row ∈ sa.1 then sa
        else (eKey row :: sa.1, sa.2 ++ [row]))
      sa

/-- Result of `get_all_events`: the accumulated rows, or the
`AssertionError` raised when the tbody snapshot does not change after
a click (the inner `wait_until` timeout caught and re-raised by the
outer handler). -/
inductive GEResult where
  | ok (rows : List (List (String × EVal)))
  | error
deriving DecidableEq, Repr

/-- Page-advance loop of `get_all_events`
(`src/Pages/alarms_and_events.py` lines 1628-1648):
`for _ in range(max_pages)` -- break when Next is disabled, click,
wait for the cleaned tbody snapshot to change (constant condition in
this synchronous model; raise on no change), accumulate the new page.
Alongside the result it returns the number of page advances
performed. -/
def geLoop (w : EventsWorld) :
    ℕ → ℕ → List (List (String × EVal)) → List (List (String × EVal)) → ℕ →
    GEResult × ℕ
  | 0, _, _, acc, adv => (.ok acc, adv)
  | iters + 1, s, seen, acc, adv =>
    if w.nextDisabledAt s then (.ok acc, adv)
    else
      let before := cleanStr (w.snapshotAt s)
      let s' := w.nextTarget s
      if cleanStr (w.snapshotAt s') ≠ before then
        let sa := eAccum (w.rowsAt s') (seen, acc)
        geLoop w iters s' sa.1 sa.2 (adv + 1)
      else (.error, adv + 1)

/-- `AlarmsAndEvents.get_all_events(timeout, max_pages)` (lines
1515-1651), loop part: read and accumulate page one, return it when no
Next button exists, else run the capped page-advance loop. -/
def get_all_events (w : EventsWorld) (max_pages : ℕ) : GEResult × ℕ :=
  let sa := eAccum (w.rowsAt 0) ([], [])
  if !w.nextPresent then (.ok sa.2, 0)
  else geLoop w max_pages 0 sa.1 sa.2 0
end AlarmsAndEvents

/-- A trivial events table whose Next button is immediately
disabled. -/
def oneShotEventsWorld : AlarmsAndEvents.EventsWorld where
  rowsAt := fun _ => [[("Severity", .s "High")]]
  snapshotAt := fun _ => "High"
  nextPresent := true
  nextDisabledAt := fun _ => true
  nextTarget := fun s => s
namespace AlarmsAndEvents

/-- `MAX_SCROLL_PAGES` (`src/Pages/alarms_and_events.py` line 16). -/
def MAX_SCROLL_PAGES : ℕ := 60

/-- The DOM state `set_all_devices_filterBy_devices` observes.  Item
index `0` is the "All" sentinel row; items `1..numDevices` are device
rows, each `rowHeightPx` tall inside a scroller of viewport
`clientHeightPx`.  `renderedAt top` lists the item indices attached to
the DOM (`li.dropdown-item.multiple`) at scroll offset `top`, in
document order: the whole list for a scroll-clipped (non-virtualized)
menu, only a window of them under virtualization. -/
structure VirtWorld where
  numDevices : ℕ
  rowHeightPx : ℤ
  clientHeightPx : ℤ
  renderedAt : ℤ → List ℕ

/-- `el.scrollHeight`: total content height. -/
def VirtWorld.scrollHeight (w : VirtWorld) : ℤ :=
  ((w.numDevices : ℤ) + 1) * w.rowHeightPx

/-- `scroll_page_down()` (line 371): `el.scrollTop += el.clientHeight`,
clamped by the browser into `[0, scrollHeight - clientHeight]`. -/
def VirtWorld.scrollDown (w : VirtWorld) (top : ℤ) : ℤ :=
  min (top + w.clientHeightPx) (max (w.scrollHeight - w.clientHeightPx) 0)

/-- `click_all_visible_unchecked()` (lines 345-355): for every
rendered row except the first (`for i in range(1, n)`, meant to skip
the "All" sentinel), click it if its checkbox is unchecked.  The
checkbox state vector holds device `i` at position `i - 1`; clicking
an unchecked row checks it (`scroll_into_view_if_needed` is a no-op
here since rendered rows are within the viewport). -/
def clickAllVisibleUnchecked (rendered : List ℕ) (checked : List Bool) : List Bool :=
  (rendered.drop 1).foldl
    (fun ch idx =>
      if idx = 0 then ch
      else if ch.getD (idx - 1) true then ch
      else ch.set (idx - 1) true)
    checked

/-- `any_unchecked_visible()` (lines 357-364): is some rendered row
other than the first unchecked? -/
def anyUncheckedVisible (rendered : List ℕ) (checked : List Bool) : Bool :=
  (rendered.drop 1).any
    (fun idx => if idx = 0 then false else !(checked.getD (idx - 1) true))

/-- Pass 1 of `all_selected_across_scroll` (lines 382-393): scroll
from the top, clicking every rendered unchecked row, stopping at the
bottom (within a 2 px tolerance), on a stuck scroll position, or after
`MAX_SCROLL_PAGES` iterations; returns the final checkbox states. -/
def pass1 (w : VirtWorld) : ℕ → ℤ → ℤ → List Bool → List Bool
  | 0, _, _, checked => checked
  | fuel + 1, top, last, checked =>
    let checked2 := clickAllVisibleUnchecked (w.renderedAt top) checked
    if w.scrollHeight - 2 ≤ top + w.clientHeightPx then checked2
    else if top = last then checked2
    else pass1 w fuel (w.scrollDown top) top checked2

/-- Pass 2 of `all_selected_across_scroll` (lines 395-409): scroll
from the top verifying that no rendered row other than the first is
unchecked; report failure as soon as one is seen. -/
def pass2 (w : VirtWorld) : ℕ → ℤ → ℤ → List Bool → Bool
  | 0, _, _, _ => true
  | fuel + 1, top, last, checked =>
    if anyUncheckedVisible (w.renderedAt top) checked then false
    else if w.scrollHeight - 2 ≤ top + w.clientHeightPx then
      !(anyUncheckedVisible (w.renderedAt top) checked)
    else if top = last then !(anyUncheckedVisible (w.renderedAt top) checked)
    else pass2 w fuel (w.scrollDown top) top checked

/-- `all_selected_across_scroll()` (lines 379-413): run pass 1 then
pass 2, both from the top with `last_scroll_top = -1`; return the
final checkbox states together with the reported boolean. -/
def all_selected_across_scroll (w : VirtWorld) (checked : List Bool) : List Bool × Bool :=
  let checked2 := pass1 w MAX_SCROLL_PAGES 0 (-1) checked
  (checked2, pass2 w MAX_SCROLL_PAGES 0 (-1) checked2)

/-- `AlarmsAndEvents.set_all_devices_filterBy_devices` (lines
296-417), selection phase: `wait_until(all_selected_across_scroll,
...)` re-runs the routine until it reports `True` or the timeout
raises; when the first run reports `True`, `wait_until` returns
silently and the checkbox states are exactly the run result, which is
what this model returns. -/
def set_all_devices_filterBy_devices (w : VirtWorld) (checked : List Bool) :
    List Bool × Bool :=
  all_selected_across_scroll w checked

/-- A concrete virtualized list: 4 device rows of height 10 px behind
a 20 px viewport, with only the items overlapping the viewport
attached to the DOM. -/
def virtWin : VirtWorld where
  numDevices := 4
  rowHeightPx := 10
  clientHeightPx := 20
  renderedAt := fun top =>
    (List.range 5).filter
      (fun i => decide ((i : ℤ) * 10 < top + 20) && decide (top < ((i : ℤ) + 1) * 10))

/-- A scroll-clipped (non-virtualized) menu: every item stays attached
to the DOM at every scroll offset, which is how the simplebar-wrapped
dropdown of the application behaves. -/
def fullDomWorld (N : ℕ) (h C : ℤ) : VirtWorld where
  numDevices := N
  rowHeightPx := h
  clientHeightPx := C
  renderedAt := fun _ => List.range (N + 1)
end AlarmsAndEvents
namespace LoginPage

/-- Result of `LoginPage.login`: a returned boolean, or a raised
expectation failure (`expect(...)` assertion error). -/
inductive LoginRes where
  | ok (b : Bool)
  | err
deriving DecidableEq, Repr

/-- Which interactions `login` performed: filling the username field,
filling the password field, clicking the Login button. -/
structure LoginEffects where
  filledUsername : Bool
  filledPassword : Bool
  clickedLogin : Bool
deriving DecidableEq, Repr

/-- The UI state `login` observes: whether the post-login anchor is
already visible, whether the Login button reports disabled after the
username is filled (password still empty), whether it reports enabled
after both fields are filled, whether the post-login anchor appears
within the wait after clicking, and whether the invalid-credentials
message is visible. -/
structure LoginWorld where
  postLoginVisible : Bool
  btnDisabledAfterUsername : String → Bool
  btnEnabledAfterBoth : String → String → Bool
  loginSucceeds : String → String → Bool
  errorMsgVisible : Bool

/-- `LoginPage.login(username, password)`
(`src/Pages/login_page.py` lines 75-114): return `True` when already
logged in; fill the username and, when it is shorter than 8
characters, assert the Login button disabled and return `False`
without touching the password; fill the password and, when it is
shorter than 8 characters, return `False` without clicking; otherwise
assert the button enabled, click it, and return whether the
post-login anchor appeared (`False` both on the visible
invalid-credentials message and on a bare timeout). -/
def login (w : LoginWorld) (username password : String) : LoginRes × LoginEffects :=
  if w.postLoginVisible then (.ok true, ⟨false, false, false⟩)
  else if username.length < 8 then
    if w.btnDisabledAfterUsername username then (.ok false, ⟨true, false, false⟩)
    else (.err, ⟨true, false, false⟩)
  else if password.length < 8 then (.ok false, ⟨true, true, false⟩)
  else if w.btnEnabledAfterBoth username password then
    if w.loginSucceeds username password then (.ok true, ⟨true, true, true⟩)
    else (.ok false, ⟨true, true, true⟩)
  else (.err, ⟨true, true, false⟩)
end LoginPage

/-- A concrete login screen: button properly disabled for short
usernames. -/
def strictWorld : LoginPage.LoginWorld where
  postLoginVisible := false
  btnDisabledAfterUsername := fun u => decide (u.length < 8)
  btnEnabledAfterBoth := fun _ _ => true
  loginSucceeds := fun _ _ => true
  errorMsgVisible := false

/-! ### Theorems -/

example :
    AlarmsAndEvents.wait_until (fun _ => .ok true) 1000 200 =
      some (.success 0) := by norm_num [AlarmsAndEvents.wait_until,
        AlarmsAndEvents.waitUntilSimpleAux]

example :
    AlarmsAndEvents.wait_until (fun _ => .ok false) 1000 200 =
      some (.timeout 1000 5 none) := by norm_num [AlarmsAndEvents.wait_until,
        AlarmsAndEvents.waitUntilSimpleAux]

example :
    DomainManagement.wait_until (fun _ => .ok true) (fun _ => 0) 1000 200 1 =
      some (.success 0 1) := by norm_num [DomainManagement.wait_until,
        DomainManagement.waitUntilAux, DomainManagement.jitterCap]

example :
    DomainManagement.wait_until (fun _ => .ok false) (fun _ => 0) 1000 200 1 =
      some (.timeout 1000 5 none) := by norm_num [DomainManagement.wait_until,
        DomainManagement.waitUntilAux, DomainManagement.jitterCap]
namespace AlarmsAndEvents

theorem simpleAux_success (cond : ℕ → CondOutcome) (T i : ℚ) (hi : 0 < i)
    (m : ℕ) (hm : cond m = .ok true) (hbudget : (m : ℚ) * i < T) :
    ∀ (fuel k : ℕ) (now : ℚ) (lastExc : Option String),
      now = (k : ℚ) * i → k ≤ m → m + 1 ≤ fuel + k →
      ∃ e, waitUntilSimpleAux cond T i fuel k now lastExc = some (.success e) ∧ e < T := by
  intro fuel
  induction fuel with
  | zero => intro k now lastExc _ h2 h3; omega
  | succ fuel ih =>
    intro k now lastExc hnow hkm hfuel
    have hlt : now < T := by
      rw [hnow]
      calc (k : ℚ) * i ≤ (m : ℚ) * i := by
            have : (k : ℚ) ≤ (m : ℚ) := by exact_mod_cast hkm
            exact mul_le_mul_of_nonneg_right this (le_of_lt hi)
        _ < T := hbudget
    have hknotm : cond k ≠ .ok true → k < m := by
      intro hne
      rcases lt_or_eq_of_le hkm with h | h
      · exact h
      · exact absurd (h ▸ hm) hne
    simp only [waitUntilSimpleAux, if_pos hlt]
    rcases hco : cond k with b | e
    · cases b with
      | true => exact ⟨now, rfl, hlt⟩
      | false =>
        have hk : k < m := hknotm (by rw [hco]; intro h; cases h)
        exact ih (k + 1) (now + i) none (by rw [hnow]; push_cast; ring) hk (by omega)
    · have hk : k < m := hknotm (by rw [hco]; intro h; cases h)
      exact ih (k + 1) (now + i) (some e) (by rw [hnow]; push_cast; ring) hk (by omega)

theorem simpleAux_timeout (cond : ℕ → CondOutcome) (T i : ℚ) (hi : 0 < i) (hT : 0 < T)
    (hnever : ∀ k b, cond k = .ok b → b = false) :
    ∀ (fuel k : ℕ) (now : ℚ) (lastExc : Option String),
      now = (k : ℚ) * i → now < T + i →
      ((k = 0 ∧ lastExc = none) ∨ (1 ≤ k ∧ lastExc = lastSwallowed cond k)) →
      T ≤ now + fuel * i →
      ∃ e a le, waitUntilSimpleAux cond T i (fuel + 1) k now lastExc =
          some (.timeout e a le) ∧ T ≤ e ∧ e < T + i ∧ e = (a : ℚ) * i ∧
          1 ≤ a ∧ le = lastSwallowed cond a := by
  intro fuel
  induction fuel with
  | zero =>
    intro k now lastExc hnow hupper hle hT2
    have hge : ¬ now < T := by
      push_neg
      simpa using hT2
    simp only [waitUntilSimpleAux, if_neg hge]
    refine ⟨now, k, lastExc, rfl, by simpa using hT2, hupper, hnow, ?_, ?_⟩
    · rcases hle with ⟨hk0, _⟩ | ⟨hk1, _⟩
      · exfalso
        rw [hk0] at hnow
        simp at hnow
        rw [hnow] at hT2
        simp at hT2
        exact absurd hT2 (not_le.mpr hT)
      · exact hk1
    · rcases hle with ⟨hk0, _⟩ | ⟨_, hle2⟩
      · exfalso
        rw [hk0] at hnow
        simp at hnow
        rw [hnow] at hT2
        simp at hT2
        exact absurd hT2 (not_le.mpr hT)
      · exact hle2
  | succ fuel ih =>
    intro k now lastExc hnow hupper hle hT2
    by_cases hlt : now < T
    · simp only [waitUntilSimpleAux, if_pos hlt]
      have hT3 : T ≤ now + i + fuel * i := by
        have := hT2
        push_cast at this ⊢
        linarith
      rcases hco : cond k with b | e
      · have hb : b = false := hnever k b hco
        subst hb
        exact ih (k + 1) (now + i) none (by rw [hnow]; push_cast; ring)
          (by linarith) (Or.inr ⟨by omega, by simp [lastSwallowed, hco]⟩) hT3
      · exact ih (k + 1) (now + i) (some e) (by rw [hnow]; push_cast; ring)
          (by linarith) (Or.inr ⟨by omega, by simp [lastSwallowed, hco]⟩) hT3
    · simp only [waitUntilSimpleAux, if_neg hlt]
      push_neg at hlt
      refine ⟨now, k, lastExc, rfl, hlt, hupper, hnow, ?_, ?_⟩
      · rcases hle with ⟨hk0, _⟩ | ⟨hk1, _⟩
        · exfalso
          rw [hk0] at hnow
          simp at hnow
          rw [hnow] at hlt
          exact absurd hlt (not_le.mpr hT)
        · exact hk1
      · rcases hle with ⟨hk0, _⟩ | ⟨_, hle2⟩
        · exfalso
          rw [hk0] at hnow
          simp at hnow
          rw [hnow] at hlt
          exact absurd hlt (not_le.mpr hT)
        · exact hle2
end AlarmsAndEvents
namespace DomainManagement

theorem advAux_success (cond : ℕ → CondOutcome) (jit : ℕ → ℚ) (T i : ℚ) (stable : ℤ)
    (hi : 0 < i) (hs : 0 < stable) (m : ℕ)
    (hrun : ∀ j, m ≤ j → j < m + stable.toNat → cond j = .ok true)
    (hbudget : ((m + stable.toNat - 1 : ℕ) : ℚ) * (i + jitterCap i) < T) :
    ∀ (fuel attempts consec : ℕ) (now : ℚ) (lastExc : Option String),
      attempts ≤ m + stable.toNat - 1 →
      now ≤ (attempts : ℚ) * (i + jitterCap i) →
      (m ≤ attempts → attempts - m ≤ consec) →
      m + stable.toNat ≤ fuel + attempts →
      ∃ e a, waitUntilAux cond jit T i stable fuel now attempts lastExc consec =
        some (.success e a) ∧ e < T := by
  have hst1 : 1 ≤ stable.toNat := by omega
  have hjc0 : 0 ≤ jitterCap i := le_min (by norm_num) (by positivity)
  have hjc : 0 < i + jitterCap i := by linarith
  intro fuel
  induction fuel with
  | zero => intro attempts consec now lastExc h1 _ _ h4; omega
  | succ fuel ih =>
    intro attempts consec now lastExc hat hnow hcons hfuel
    have hnowT : now < T := by
      calc now ≤ (attempts : ℚ) * (i + jitterCap i) := hnow
        _ ≤ ((m + stable.toNat - 1 : ℕ) : ℚ) * (i + jitterCap i) := by
            have : (attempts : ℚ) ≤ ((m + stable.toNat - 1 : ℕ) : ℚ) := by exact_mod_cast hat
            exact mul_le_mul_of_nonneg_right this (le_of_lt hjc)
        _ < T := hbudget
    simp only [waitUntilAux, if_neg (not_le.mpr hnowT)]
    have hrec : ∀ (lastExc' : Option String) (consec' : ℕ),
        attempts + 1 ≤ m + stable.toNat - 1 →
        (m ≤ attempts + 1 → attempts + 1 - m ≤ consec') →
        ∃ e a,
          (if min (max 0 (T - now)) (i + min (max (jit attempts) 0) (jitterCap i)) ≤ 0 then
            some (.timeout now (attempts + 1) lastExc')
          else waitUntilAux cond jit T i stable fuel
            (now + min (max 0 (T - now)) (i + min (max (jit attempts) 0) (jitterCap i)))
            (attempts + 1) lastExc' consec') = some (.success e a) ∧ e < T := by
      intro lastExc' consec' hat' hcons'
      have hj0 : 0 ≤ min (max (jit attempts) 0) (jitterCap i) :=
        le_min (le_max_right _ _) hjc0
      have hjcap : min (max (jit attempts) 0) (jitterCap i) ≤ jitterCap i := min_le_right _ _
      have hrem : max 0 (T - now) = T - now := max_eq_right (by linarith)
      have hpos : 0 < min (max 0 (T - now)) (i + min (max (jit attempts) 0) (jitterCap i)) := by
        rw [hrem]
        exact lt_min (by linarith) (by linarith)
      rw [if_neg (not_le.mpr hpos)]
      apply ih (attempts + 1) consec'
        (now + min (max 0 (T - now)) (i + min (max (jit attempts) 0) (jitterCap i))) lastExc'
        hat' _ hcons' (by omega)
      have hsleep : min (max 0 (T - now)) (i + min (max (jit attempts) 0) (jitterCap i)) ≤
          i + jitterCap i := le_trans (min_le_right _ _) (by linarith)
      push_cast
      push_cast at hnow
      nlinarith [hnow, hsleep]
    rcases hco : cond attempts with b | e
    · cases b with
      | true =>
        by_cases hdone : stable ≤ (consec : ℤ) + 1
        · rw [if_pos hdone]
          exact ⟨now, attempts + 1, rfl, hnowT⟩
        · rw [if_neg hdone]
          have hatlt : attempts < m + stable.toNat - 1 := by
            rcases lt_or_eq_of_le hat with h | h
            · exact h
            · exfalso
              have h1 : m ≤ attempts := by omega
              have h2 : attempts - m ≤ consec := hcons h1
              omega
          exact hrec none (consec + 1) (by omega) (by omega)
      | false =>
        have hatm : attempts < m := by
          by_contra h
          push_neg at h
          have := hrun attempts h (by omega)
          rw [hco] at this
          cases this
        exact hrec none 0 (by omega) (by omega)
    · have hatm : attempts < m := by
        by_contra h
        push_neg at h
        have := hrun attempts h (by omega)
        rw [hco] at this
        cases this
      exact hrec (some e) 0 (by omega) (by omega)

theorem advAux_timeout (cond : ℕ → CondOutcome) (jit : ℕ → ℚ) (T i : ℚ) (stable : ℤ)
    (hi : 0 < i) (hT : 0 < T)
    (hnever : ∀ k b, cond k = .ok b → b = false) :
    ∀ (fuel attempts consec : ℕ) (now : ℚ) (lastExc : Option String),
      now ≤ T →
      ((attempts : ℚ) * i ≤ now ∨ (now = T ∧ (attempts : ℚ) * i ≤ T + i)) →
      ((attempts = 0 ∧ now = 0 ∧ lastExc = none) ∨
        (1 ≤ attempts ∧ lastExc = lastSwallowed cond attempts)) →
      T + i ≤ now + (fuel : ℚ) * i →
      ∃ e a le, waitUntilAux cond jit T i stable fuel now attempts lastExc consec =
        some (.timeout e a le) ∧ e ≤ T ∧ (a : ℚ) * i ≤ T + i ∧ 1 ≤ a ∧
        le = lastSwallowed cond a := by
  intro fuel
  induction fuel with
  | zero =>
    intro attempts consec now lastExc hnowT _ _ hfuel
    exfalso
    push_cast at hfuel
    linarith
  | succ fuel ih =>
    intro attempts consec now lastExc hnowT hQ hLE hfuel
    by_cases htimeout : T ≤ now
    · simp only [waitUntilAux, if_pos htimeout]
      have hnowe : now = T := le_antisymm hnowT htimeout
      have ha1 : 1 ≤ attempts := by
        rcases hLE with ⟨_, hn0, _⟩ | ⟨h1, _⟩
        · exfalso; rw [hn0] at htimeout; linarith
        · exact h1
      have hle : lastExc = lastSwallowed cond attempts := by
        rcases hLE with ⟨_, hn0, _⟩ | ⟨_, h2⟩
        · exfalso; rw [hn0] at htimeout; linarith
        · exact h2
      have hbound : (attempts : ℚ) * i ≤ T + i := by
        rcases hQ with h | ⟨_, h⟩
        · linarith
        · exact h
      exact ⟨now, attempts, lastExc, rfl, hnowT, hbound, ha1, hle⟩
    · push_neg at htimeout
      simp only [waitUntilAux, if_neg (not_le.mpr htimeout)]
      have hQleft : (attempts : ℚ) * i ≤ now := by
        rcases hQ with h | ⟨h, _⟩
        · exact h
        · exfalso; rw [h] at htimeout; linarith
      have hfuel1 : 1 ≤ fuel := by
        by_contra h
        push_neg at h
        interval_cases fuel
        · push_cast at hfuel; linarith
      have hrec : ∀ (lastExc' : Option String) (consec' : ℕ),
          lastExc' = lastSwallowed cond (attempts + 1) →
          ∃ e a le,
            (if min (max 0 (T - now)) (i + min (max (jit attempts) 0) (jitterCap i)) ≤ 0 then
              some (.timeout now (attempts + 1) lastExc')
            else waitUntilAux cond jit T i stable fuel
              (now + min (max 0 (T - now)) (i + min (max (jit attempts) 0) (jitterCap i)))
              (attempts + 1) lastExc' consec') = some (.timeout e a le) ∧ e ≤ T ∧
            (a : ℚ) * i ≤ T + i ∧ 1 ≤ a ∧ le = lastSwallowed cond a := by
        intro lastExc' consec' hle'
        have hjc0 : 0 ≤ jitterCap i := le_min (by norm_num) (by positivity)
        have hj0 : 0 ≤ min (max (jit attempts) 0) (jitterCap i) :=
          le_min (le_max_right _ _) hjc0
        have hrem : max 0 (T - now) = T - now := max_eq_right (by linarith)
        set j : ℚ := min (max (jit attempts) 0) (jitterCap i) with hj
        have hpos : 0 < min (max 0 (T - now)) (i + j) := by
          rw [hrem]
          exact lt_min (by linarith) (by linarith)
        rw [if_neg (not_le.mpr hpos)]
        by_cases hclamp : T - now ≤ i + j
        · have hsleep : min (max 0 (T - now)) (i + j) = T - now := by
            rw [hrem]
            exact min_eq_left hclamp
          rw [hsleep]
          have hnow' : now + (T - now) = T := by ring
          rw [hnow']
          apply ih (attempts + 1) consec' T lastExc' le_rfl
            (Or.inr ⟨rfl, by push_cast; linarith⟩)
            (Or.inr ⟨by omega, hle'⟩)
          have : (1 : ℚ) ≤ (fuel : ℚ) := by exact_mod_cast hfuel1
          nlinarith
        · push_neg at hclamp
          have hsleep : min (max 0 (T - now)) (i + j) = i + j := by
            rw [hrem]
            exact min_eq_right (le_of_lt hclamp)
          rw [hsleep]
          apply ih (attempts + 1) consec' (now + (i + j)) lastExc' (by linarith)
            (Or.inl (by push_cast; linarith))
            (Or.inr ⟨by omega, hle'⟩)
          push_cast
          push_cast at hfuel
          linarith [hj0]
      rcases hco : cond attempts with b | e
      · have hb : b = false := hnever attempts b hco
        subst hb
        exact hrec none 0 (by simp [lastSwallowed, hco])
      · exact hrec (some e) 0 (by simp [lastSwallowed, hco])
end DomainManagement

/-- Casting helper: the integer (Euclidean) quotient of two positive
integers is at least the rational quotient minus one. -/
theorem int_ediv_ge_div_sub_one (T i : ℤ) (hi : 0 < i) :
    (T : ℚ) / (i : ℚ) - 1 ≤ ((T / i : ℤ) : ℚ) := by
  have h := Int.lt_ediv_add_one_mul_self T hi
  have hiq : (0 : ℚ) < (i : ℚ) := by exact_mod_cast hi
  rw [div_sub_one (ne_of_gt hiq), div_le_iff₀ hiq]
  have h2 : (T : ℚ) < ((T / i : ℤ) : ℚ) * i + i := by
    exact_mod_cast (by nlinarith [h] : T < (T / i) * i + i)
  linarith

/-- Top-level success characterization of the advanced poller: if the
predicate holds at `stable_successes` consecutive polls starting at
poll `m`, and those polls fit in the budget even with maximal jitter,
`wait_until` returns silently strictly before the deadline. -/
theorem DomainManagement.advanced_wait_success
    (cond : ℕ → CondOutcome) (jit : ℕ → ℚ) (timeout_ms interval_ms stable : ℤ) (m : ℕ)
    (hT : 0 < timeout_ms) (hi : 0 < interval_ms) (hs : 0 < stable)
    (hrun : ∀ j, m ≤ j → j < m + stable.toNat → cond j = .ok true)
    (hbudget : ((m + stable.toNat - 1 : ℕ) : ℚ) *
        ((interval_ms : ℚ) + DomainManagement.jitterCap (interval_ms : ℚ)) <
      (timeout_ms : ℚ)) :
    ∃ e a, DomainManagement.wait_until cond jit timeout_ms interval_ms stable =
      some (.success e a) ∧ e < (timeout_ms : ℚ) := by
  have hiq : (0 : ℚ) < (interval_ms : ℚ) := by exact_mod_cast hi
  have hjc0 : 0 ≤ DomainManagement.jitterCap (interval_ms : ℚ) :=
    le_min (by norm_num) (by positivity)
  have hdivnn : 0 ≤ timeout_ms / interval_ms := Int.ediv_nonneg (le_of_lt hT) (le_of_lt hi)
  have hdivlow := int_ediv_ge_div_sub_one timeout_ms interval_ms hi
  unfold DomainManagement.wait_until
  rw [if_neg (by omega), if_neg (by omega), if_neg (by omega)]
  apply DomainManagement.advAux_success cond jit _ _ stable hiq hs m hrun hbudget
    ((timeout_ms / interval_ms).toNat + 2) 0 0 0 none (Nat.zero_le _) (by simp)
    (by intro h; omega)
  have htarget : ((m + stable.toNat - 1 : ℕ) : ℚ) <
      (timeout_ms : ℚ) / (interval_ms : ℚ) := by
    rw [lt_div_iff₀ hiq]
    calc ((m + stable.toNat - 1 : ℕ) : ℚ) * (interval_ms : ℚ)
        ≤ ((m + stable.toNat - 1 : ℕ) : ℚ) *
            ((interval_ms : ℚ) + DomainManagement.jitterCap (interval_ms : ℚ)) := by
          apply mul_le_mul_of_nonneg_left (by linarith) (by positivity)
      _ < (timeout_ms : ℚ) := hbudget
  have htarget2 : ((m + stable.toNat - 1 : ℕ) : ℤ) < timeout_ms / interval_ms + 1 := by
    have : ((m + stable.toNat - 1 : ℕ) : ℚ) < ((timeout_ms / interval_ms : ℤ) : ℚ) + 1 := by
      linarith
    exact_mod_cast this
  omega

/-- Top-level success characterization of the simple poller: if the
predicate holds at poll `m` and `m * interval < timeout`, `wait_until`
returns silently strictly before the deadline. -/
theorem AlarmsAndEvents.simple_wait_success
    (cond : ℕ → CondOutcome) (timeout_ms interval_ms : ℤ) (m : ℕ)
    (hi : 0 < interval_ms)
    (hm : cond m = .ok true)
    (hlt : (m : ℚ) * (interval_ms : ℚ) < (timeout_ms : ℚ)) :
    ∃ e, AlarmsAndEvents.wait_until cond timeout_ms interval_ms =
      some (.success e) ∧ e < (timeout_ms : ℚ) := by
  have hiq : (0 : ℚ) < (interval_ms : ℚ) := by exact_mod_cast hi
  unfold AlarmsAndEvents.wait_until
  apply AlarmsAndEvents.simpleAux_success cond _ _ hiq m hm hlt
    (⌈(timeout_ms : ℚ) / (interval_ms : ℚ)⌉.toNat + 1) 0 0 none (by simp) (Nat.zero_le _)
  have hmlt : (m : ℚ) < (timeout_ms : ℚ) / (interval_ms : ℚ) := by
    rw [lt_div_iff₀ hiq]; exact hlt
  have hceil : (m : ℤ) < ⌈(timeout_ms : ℚ) / (interval_ms : ℚ)⌉ := by
    have h1 : (m : ℚ) < (⌈(timeout_ms : ℚ) / (interval_ms : ℚ)⌉ : ℚ) :=
      lt_of_lt_of_le hmlt (Int.le_ceil _)
    exact_mod_cast h1
  omega

/-- Top-level timeout characterization of the advanced poller over a
predicate that never returns true: it raises, at elapsed at most the
timeout, after between `1` and `floor(timeout/interval) + 1` attempts,
with the last swallowed exception of the final poll. -/
theorem DomainManagement.advanced_wait_timeout
    (cond : ℕ → CondOutcome) (jit : ℕ → ℚ) (timeout_ms interval_ms stable : ℤ)
    (hT : 0 < timeout_ms) (hi : 0 < interval_ms) (hs : 0 < stable)
    (hnever : ∀ k b, cond k = .ok b → b = false) :
    ∃ e a le, DomainManagement.wait_until cond jit timeout_ms interval_ms stable =
      some (.timeout e a le) ∧ e ≤ (timeout_ms : ℚ) ∧ 1 ≤ a ∧
      (a : ℤ) ≤ timeout_ms / interval_ms + 1 ∧ le = lastSwallowed cond a := by
  have hiq : (0 : ℚ) < (interval_ms : ℚ) := by exact_mod_cast hi
  have hTq : (0 : ℚ) < (timeout_ms : ℚ) := by exact_mod_cast hT
  have hdivnn : 0 ≤ timeout_ms / interval_ms := Int.ediv_nonneg (le_of_lt hT) (le_of_lt hi)
  have hdivlow := int_ediv_ge_div_sub_one timeout_ms interval_ms hi
  unfold DomainManagement.wait_until
  rw [if_neg (by omega), if_neg (by omega), if_neg (by omega)]
  have h0 : (((timeout_ms / interval_ms).toNat : ℕ) : ℚ) =
      ((timeout_ms / interval_ms : ℤ) : ℚ) := by
    exact_mod_cast Int.toNat_of_nonneg hdivnn
  have hfuel : (timeout_ms : ℚ) + (interval_ms : ℚ) ≤
      0 + (((timeout_ms / interval_ms).toNat + 2 : ℕ) : ℚ) * (interval_ms : ℚ) := by
    have hcast : (((timeout_ms / interval_ms).toNat + 2 : ℕ) : ℚ) =
        ((timeout_ms / interval_ms : ℤ) : ℚ) + 2 := by
      push_cast [h0]
      ring
    rw [hcast]
    have : ((timeout_ms : ℚ) / (interval_ms : ℚ)) * (interval_ms : ℚ) = (timeout_ms : ℚ) :=
      div_mul_cancel₀ _ (ne_of_gt hiq)
    nlinarith [hdivlow]
  obtain ⟨e, a, le, heq, heT, hbound, ha1, hlast⟩ := DomainManagement.advAux_timeout cond jit
    _ _ stable hiq hTq hnever ((timeout_ms / interval_ms).toNat + 2) 0 0 0 none (le_of_lt hTq)
    (Or.inl (by simp)) (Or.inl ⟨rfl, rfl, rfl⟩) hfuel
  refine ⟨e, a, le, heq, heT, ha1, ?_, hlast⟩
  have hmul : ((a : ℤ) - 1) * interval_ms ≤ timeout_ms := by
    have : ((a : ℚ) - 1) * (interval_ms : ℚ) ≤ (timeout_ms : ℚ) := by
      ring_nf
      linarith [hbound]
    exact_mod_cast this
  have := (Int.le_ediv_iff_mul_le hi).mpr hmul
  omega

/-- Top-level timeout characterization of the simple poller over a
predicate that never returns true: it raises, at elapsed in
`[timeout, timeout + interval)` equal to `attempts * interval`, with
the last swallowed exception of the final poll. -/
theorem AlarmsAndEvents.simple_wait_timeout
    (cond : ℕ → CondOutcome) (timeout_ms interval_ms : ℤ)
    (hT : 0 < timeout_ms) (hi : 0 < interval_ms)
    (hnever : ∀ k b, cond k = .ok b → b = false) :
    ∃ e a le, AlarmsAndEvents.wait_until cond timeout_ms interval_ms =
      some (.timeout e a le) ∧ (timeout_ms : ℚ) ≤ e ∧
      e < (timeout_ms : ℚ) + (interval_ms : ℚ) ∧ e = (a : ℚ) * (interval_ms : ℚ) ∧
      1 ≤ a ∧ le = lastSwallowed cond a := by
  have hiq : (0 : ℚ) < (interval_ms : ℚ) := by exact_mod_cast hi
  have hTq : (0 : ℚ) < (timeout_ms : ℚ) := by exact_mod_cast hT
  unfold AlarmsAndEvents.wait_until
  have hfuel : (timeout_ms : ℚ) ≤
      0 + ((⌈(timeout_ms : ℚ) / (interval_ms : ℚ)⌉.toNat : ℕ) : ℚ) * (interval_ms : ℚ) := by
    have hnn : 0 ≤ ⌈(timeout_ms : ℚ) / (interval_ms : ℚ)⌉ :=
      Int.ceil_nonneg (by positivity)
    have hcast : ((⌈(timeout_ms : ℚ) / (interval_ms : ℚ)⌉.toNat : ℕ) : ℚ) =
        (⌈(timeout_ms : ℚ) / (interval_ms : ℚ)⌉ : ℚ) := by
      exact_mod_cast Int.toNat_of_nonneg hnn
    rw [hcast]
    have h1 : (timeout_ms : ℚ) / (interval_ms : ℚ) ≤
        (⌈(timeout_ms : ℚ) / (interval_ms : ℚ)⌉ : ℚ) := Int.le_ceil _
    have h2 : ((timeout_ms : ℚ) / (interval_ms : ℚ)) * (interval_ms : ℚ) = (timeout_ms : ℚ) :=
      div_mul_cancel₀ _ (ne_of_gt hiq)
    nlinarith
  obtain ⟨e, a, le, heq, hTe, heTi, hea, ha1, hlast⟩ := AlarmsAndEvents.simpleAux_timeout cond
    _ _ hiq hTq hnever (⌈(timeout_ms : ℚ) / (interval_ms : ℚ)⌉.toNat) 0 0 none (by simp)
    (by linarith) (Or.inl ⟨rfl, rfl⟩) hfuel
  exact ⟨e, a, le, heq, hTe, heTi, hea, ha1, hlast⟩

/-- The advanced poller raised message always embeds the last
swallowed exception when one is present. -/
theorem timeoutMessage_contains_exc (desc : String) (el : ℚ) (a : ℕ) (e : String) :
    strContains (DomainManagement.timeoutMessage desc el a (some e)) e := by
  refine ⟨"wait_until timeout after " ++ toString el ++ "ms waiting for " ++ desc ++
    ". Attempts=" ++ toString a ++ ". Last error: ", "", ?_⟩
  simp [DomainManagement.timeoutMessage]

/-- The simple poller raised message always embeds the last swallowed
exception when one is present. -/
theorem simpleTimeoutMessage_contains_exc (timeout_ms : ℤ) (e : String) :
    strContains (AlarmsAndEvents.simpleTimeoutMessage timeout_ms (some e)) e := by
  refine ⟨"Condition not met within " ++ toString timeout_ms ++ "ms. Last error: ", "", ?_⟩
  simp [AlarmsAndEvents.simpleTimeoutMessage]

/-- Claim C1: for every predicate that becomes true (and stays true for
the required number of consecutive successes) before the timeout budget
is exhausted, `wait_until` returns silently, strictly before the
timeout elapses; for every predicate that never becomes true,
`wait_until` raises an error rather than returning any boolean, so the
caller only ever observes success-or-exception.  Stated for both the
advanced poller (`DomainManagement.wait_until`) and the simple one
(`AlarmsAndEvents.wait_until`). -/
theorem condition_poller_success_or_exception
    (cond : ℕ → CondOutcome) (jit : ℕ → ℚ) (timeout_ms interval_ms stable : ℤ) (m : ℕ)
    (hT : 0 < timeout_ms) (hi : 0 < interval_ms) (hs : 0 < stable) :
    ((∀ j, m ≤ j → j < m + stable.toNat → cond j = .ok true) →
        ((m + stable.toNat - 1 : ℕ) : ℚ) *
            ((interval_ms : ℚ) + DomainManagement.jitterCap (interval_ms : ℚ)) <
          (timeout_ms : ℚ) →
        ∃ e a, DomainManagement.wait_until cond jit timeout_ms interval_ms stable =
          some (.success e a) ∧ e < (timeout_ms : ℚ))
    ∧ (cond m = .ok true → (m : ℚ) * (interval_ms : ℚ) < (timeout_ms : ℚ) →
        ∃ e, AlarmsAndEvents.wait_until cond timeout_ms interval_ms =
          some (.success e) ∧ e < (timeout_ms : ℚ))
    ∧ ((∀ k b, cond k = .ok b → b = false) →
        (∃ e a le, DomainManagement.wait_until cond jit timeout_ms interval_ms stable =
            some (.timeout e a le))
        ∧ (∃ e a le, AlarmsAndEvents.wait_until cond timeout_ms interval_ms =
            some (.timeout e a le))) := by
  refine ⟨?_, ?_, ?_⟩
  · intro hrun hbudget
    exact DomainManagement.advanced_wait_success cond jit timeout_ms interval_ms stable m
      hT hi hs hrun hbudget
  · intro hm hlt
    exact AlarmsAndEvents.simple_wait_success cond timeout_ms interval_ms m hi hm hlt
  · intro hnever
    constructor
    · obtain ⟨e, a, le, heq, _⟩ := DomainManagement.advanced_wait_timeout cond jit timeout_ms
        interval_ms stable hT hi hs hnever
      exact ⟨e, a, le, heq⟩
    · obtain ⟨e, a, le, heq, _⟩ := AlarmsAndEvents.simple_wait_timeout cond timeout_ms
        interval_ms hT hi hnever
      exact ⟨e, a, le, heq⟩

/-- Witness for C1: with an immediately-true predicate, a 1000 ms
budget and a 200 ms interval, the advanced poller returns silently and
strictly before the deadline. -/
theorem condition_poller_success_or_exception_witness :
    ∃ e a, DomainManagement.wait_until (fun _ => .ok true) (fun _ => 0) 1000 200 1 =
      some (.success e a) ∧ e < (1000 : ℚ) :=
  (condition_poller_success_or_exception (fun _ => .ok true) (fun _ => 0)
    1000 200 1 0 (by norm_num) (by norm_num) (by norm_num)).1
    (fun _ _ _ => rfl) (by norm_num [DomainManagement.jitterCap])

/-- Claim C2: a predicate that raises on each of its first `K`
invocations and returns true on invocation `K+1`, with `K+1`
invocations fitting inside the timeout budget, makes `wait_until`
return success; and when `wait_until` times out over a predicate that
raised at every poll, the raised error message embeds the most recent
exception.  Stated for both poller variants. -/
theorem condition_poller_exception_tolerance
    (cond condE : ℕ → CondOutcome) (jit : ℕ → ℚ) (desc : String)
    (timeout_ms interval_ms : ℤ) (K : ℕ) (es : ℕ → String)
    (hT : 0 < timeout_ms) (hi : 0 < interval_ms)
    (hexc : ∀ j, j < K → cond j = .exc (es j)) (htrue : cond K = .ok true) :
    (((K : ℚ) * ((interval_ms : ℚ) + DomainManagement.jitterCap (interval_ms : ℚ)) <
          (timeout_ms : ℚ) →
        ∃ e a, DomainManagement.wait_until cond jit timeout_ms interval_ms 1 =
          some (.success e a))
      ∧ ((K : ℚ) * (interval_ms : ℚ) < (timeout_ms : ℚ) →
        ∃ e, AlarmsAndEvents.wait_until cond timeout_ms interval_ms = some (.success e)))
    ∧ ((∀ j, condE j = .exc (es j)) →
      (∃ e a, DomainManagement.wait_until condE jit timeout_ms interval_ms 1 =
          some (.timeout e a (some (es (a - 1)))) ∧ 1 ≤ a ∧
          strContains (DomainManagement.timeoutMessage desc e a (some (es (a - 1))))
            (es (a - 1)))
      ∧ (∃ e a, AlarmsAndEvents.wait_until condE timeout_ms interval_ms =
          some (.timeout e a (some (es (a - 1)))) ∧ 1 ≤ a ∧
          strContains (AlarmsAndEvents.simpleTimeoutMessage timeout_ms (some (es (a - 1))))
            (es (a - 1)))) := by
  have hrun : ∀ j, K ≤ j → j < K + (1 : ℤ).toNat → cond j = .ok true := by
    intro j h1 h2
    have : j = K := by omega
    rw [this]
    exact htrue
  constructor
  · constructor
    · intro hbudget
      have hK : ((K + (1 : ℤ).toNat - 1 : ℕ) : ℚ) = (K : ℚ) := by norm_num
      obtain ⟨e, a, heq, _⟩ := DomainManagement.advanced_wait_success cond jit timeout_ms
        interval_ms 1 K hT hi (by norm_num) hrun (by rw [hK]; exact hbudget)
      exact ⟨e, a, heq⟩
    · intro hbudget
      obtain ⟨e, heq, _⟩ := AlarmsAndEvents.simple_wait_success cond timeout_ms interval_ms K
        hi htrue hbudget
      exact ⟨e, heq⟩
  · intro hE
    have hnever : ∀ k b, condE k = .ok b → b = false := by
      intro k b h
      rw [hE k] at h
      cases h
    constructor
    · obtain ⟨e, a, le, heq, _, ha1, _, hle⟩ := DomainManagement.advanced_wait_timeout condE jit
        timeout_ms interval_ms 1 hT hi (by norm_num) hnever
      have hle2 : le = some (es (a - 1)) := by
        rw [hle]
        unfold lastSwallowed
        rw [hE (a - 1)]
      rw [hle2] at heq
      exact ⟨e, a, heq, ha1, timeoutMessage_contains_exc desc e a (es (a - 1))⟩
    · obtain ⟨e, a, le, heq, _, _, _, ha1, hle⟩ := AlarmsAndEvents.simple_wait_timeout condE
        timeout_ms interval_ms hT hi hnever
      have hle2 : le = some (es (a - 1)) := by
        rw [hle]
        unfold lastSwallowed
        rw [hE (a - 1)]
      rw [hle2] at heq
      exact ⟨e, a, heq, ha1, simpleTimeoutMessage_contains_exc timeout_ms (es (a - 1))⟩

/-- Witness for C2: a predicate raising twice then true succeeds within
a 1000 ms budget at a 200 ms interval; an always-raising predicate
times out with the exception embedded in the message. -/
theorem condition_poller_exception_tolerance_witness :
    (∃ e a, DomainManagement.wait_until
      (fun k => if k < 2 then .exc "boom" else .ok true) (fun _ => 0) 1000 200 1 =
        some (.success e a))
    ∧ (∃ e a, AlarmsAndEvents.wait_until (fun _ => .exc "boom") 1000 200 =
        some (.timeout e a (some "boom")) ∧ 1 ≤ a ∧
        strContains (AlarmsAndEvents.simpleTimeoutMessage 1000 (some "boom")) "boom") := by
  have h := condition_poller_exception_tolerance
    (fun k => if k < 2 then .exc "boom" else .ok true) (fun _ => .exc "boom") (fun _ => 0)
    "condition" 1000 200 2 (fun _ => "boom") (by norm_num) (by norm_num)
    (fun j hj => by simp [hj]) (by norm_num)
  exact ⟨h.1.1 (by norm_num [DomainManagement.jitterCap]), (h.2 (fun j => rfl)).2⟩

/-- Run of the advanced poller on an always-false predicate with a
constant 40 ms jitter draw, 10000 ms budget, 200 ms interval: starting
before poll `k` (at `240 * k` ms elapsed), the loop times out at
exactly 10000 ms after 42 polls. -/
theorem c3_run : ∀ (fuel k : ℕ), 240 * k ≤ 9840 → 43 ≤ fuel + k →
    DomainManagement.waitUntilAux (fun _ => .ok false) (fun _ => 40) 10000 200 1
      fuel (240 * (k : ℚ)) k none 0 = some (.timeout 10000 42 none) := by
  intro fuel
  induction fuel with
  | zero => intro k h1 h2; omega
  | succ fuel ih =>
    intro k h1 h2
    have hklt : (240 : ℚ) * (k : ℚ) < 10000 := by
      have : (240 : ℚ) * (k : ℚ) ≤ 9840 := by exact_mod_cast h1
      linarith
    rw [DomainManagement.waitUntilAux]
    rw [if_neg (not_le.mpr hklt)]
    have hj : min (max ((fun _ : ℕ => (40 : ℚ)) k) 0) (DomainManagement.jitterCap 200) = 40 := by
      norm_num [DomainManagement.jitterCap]
    have hrem : max (0 : ℚ) (10000 - 240 * (k : ℚ)) = 10000 - 240 * (k : ℚ) :=
      max_eq_right (by linarith)
    by_cases hk : k ≤ 40
    · have hsleep : min (10000 - 240 * (k : ℚ)) (200 + 40) = 240 := by
        rw [min_eq_right]
        · norm_num
        · have : (240 : ℚ) * (k : ℚ) ≤ 9600 := by
            have : (k : ℚ) ≤ 40 := by exact_mod_cast hk
            nlinarith
          linarith
      simp only [hrem, hj, hsleep]
      norm_num
      convert ih (k + 1) (by omega) (by omega) using 2
      push_cast
      ring
    · push_neg at hk
      have hk41 : k = 41 := by omega
      subst hk41
      have hsleep : min (10000 - 240 * ((41 : ℕ) : ℚ)) (200 + 40) = 160 := by
        norm_num
      simp only [hrem, hj, hsleep]
      norm_num
      have hfuel : fuel ≠ 0 := by omega
      obtain ⟨fuel2, rfl⟩ := Nat.exists_eq_succ_of_ne_zero hfuel
      rw [DomainManagement.waitUntilAux]
      norm_num

/-- Claim C3 counterexample: with timeout 10000 ms and interval 200 ms
(`floor(T/interval) = 50`) and an admissible jitter draw of 40 ms per
sleep, the advanced poller times out reporting 42 attempts, which is
not within plus-or-minus one of 50; so "the attempt count equals
floor(T / interval) to within plus-or-minus one" fails. -/
theorem condition_poller_timeout_fidelity_counterexample :
    DomainManagement.wait_until (fun _ => .ok false) (fun _ => 40) 10000 200 1 =
      some (.timeout 10000 42 none) ∧
    (10000 : ℤ) / 200 = 50 ∧
    ¬ ((50 : ℤ) - 1 ≤ 42 ∧ (42 : ℤ) ≤ 50 + 1) := by
  refine ⟨?_, by decide, by decide⟩
  unfold DomainManagement.wait_until
  norm_num
  rw [show Int.toNat 50 + 2 = 52 from by decide]
  have h := c3_run 52 0 (by norm_num) (by norm_num)
  norm_num at h
  exact h

/-- Claim C3 (amended): for every predicate that never becomes true the
pollers raise within `T + interval` of wall-clock time (the advanced
poller at elapsed at most `T`, the simple one at elapsed in
`[T, T + interval)`); the advanced poller reports an attempt count of
at least one and at most `floor(T/interval) + 1`, but jitter can make
it undershoot `floor(T/interval)` by more than one; the simple poller
reports no attempt count (its ghost count satisfies
`elapsed = attempts * interval`). -/
theorem condition_poller_timeout_fidelity_amended
    (cond : ℕ → CondOutcome) (jit : ℕ → ℚ) (timeout_ms interval_ms stable : ℤ)
    (hT : 0 < timeout_ms) (hi : 0 < interval_ms) (hs : 0 < stable)
    (hnever : ∀ k b, cond k = .ok b → b = false) :
    (∃ e a le, DomainManagement.wait_until cond jit timeout_ms interval_ms stable =
        some (.timeout e a le) ∧ e ≤ (timeout_ms : ℚ) ∧ 1 ≤ a ∧
        (a : ℤ) ≤ timeout_ms / interval_ms + 1)
    ∧ (∃ e a le, AlarmsAndEvents.wait_until cond timeout_ms interval_ms =
        some (.timeout e a le) ∧ (timeout_ms : ℚ) ≤ e ∧
        e < (timeout_ms : ℚ) + (interval_ms : ℚ) ∧
        e = (a : ℚ) * (interval_ms : ℚ)) := by
  constructor
  · obtain ⟨e, a, le, heq, heT, ha1, hbound, _⟩ := DomainManagement.advanced_wait_timeout cond
      jit timeout_ms interval_ms stable hT hi hs hnever
    exact ⟨e, a, le, heq, heT, ha1, hbound⟩
  · obtain ⟨e, a, le, heq, hTe, heTi, hea, _⟩ := AlarmsAndEvents.simple_wait_timeout cond
      timeout_ms interval_ms hT hi hnever
    exact ⟨e, a, le, heq, hTe, heTi, hea⟩

/-- Witness for the amended C3: an always-false predicate with a
1000 ms budget and 200 ms interval makes both pollers time out inside
the stated elapsed-time and attempt-count envelopes. -/
theorem condition_poller_timeout_fidelity_amended_witness :
    (∃ e a le, DomainManagement.wait_until (fun _ => .ok false) (fun _ => 0) 1000 200 1 =
        some (.timeout e a le) ∧ e ≤ (1000 : ℚ) ∧ 1 ≤ a ∧ (a : ℤ) ≤ 1000 / 200 + 1)
    ∧ (∃ e a le, AlarmsAndEvents.wait_until (fun _ => .ok false) 1000 200 =
        some (.timeout e a le) ∧ (1000 : ℚ) ≤ e ∧ e < (1000 : ℚ) + (200 : ℚ) ∧
        e = (a : ℚ) * (200 : ℚ)) :=
  condition_poller_timeout_fidelity_amended (fun _ => .ok false) (fun _ => 0) 1000 200 1
    (by norm_num) (by norm_num) (by norm_num)
    (fun _ b h => by cases h; rfl)

example : nav_text_regex "BS-12/12" = "BS[-–]12/12".data := by decide

/-- Claim C4 (code evaluated at the failing input): the pattern built
by `nav_text_regex` from `"BS-12/12"` is `BS[-–]12/12`: since Python
3.7 `re.escape` does not escape the forward slash, so the `\/`
rewrite that was meant to allow spaces around slashes never fires.
The pattern therefore matches `"BS-12/12"` and the en-dash variant
`"BS–12/12"` and rejects `"BS-99/99"`, but does NOT match
`"BS-12 / 12"`, contradicting both the spec and the comment in the
source. -/
theorem nav_text_regex_slash_spacing_bug :
    nav_text_regex "BS-12/12" = "BS[-–]12/12".data ∧
    regexSearches (nav_text_regex "BS-12/12") "BS-12/12" = true ∧
    regexSearches (nav_text_regex "BS-12/12") "BS–12/12" = true ∧
    regexSearches (nav_text_regex "BS-12/12") "BS-99/99" = false ∧
    regexSearches (nav_text_regex "BS-12/12") "BS-12 / 12" = false :=
  ⟨by decide, by decide, by decide, by decide, by decide⟩

/-- The whitespace-collapsing rule of `nav_text_regex` does work: a
name containing a space yields a `\s+` token, so `"a b"` also matches
renderings with several blanks. -/
theorem nav_text_regex_ws_collapse :
    nav_text_regex "a b" = "a\\s+b".data ∧
    regexSearches (nav_text_regex "a b") "a   b" = true ∧
    regexSearches (nav_text_regex "a b") "ab" = false :=
  ⟨by decide, by decide, by decide⟩

/-! ## String normalization and the paginated table reader -/

/-- Claim C6: whenever the pager is present, the Next control is
enabled (no `disabled` class token), and clicking it changes neither
the active-page text nor the first-row fingerprint to a nonempty new
value -- the table content fingerprint never changes within the poll
timeout -- `read_all_pages_from_table` raises the descriptive
`wait_until` timeout error instead of looping forever or silently
returning a partial row set. -/
theorem paginated_reader_stuck_page (w : ServiceList.TableWorld) (timeout : ℤ) (fuel : ℕ)
    (hpager : w.pagerPresent = true)
    (henabled : "disabled" ∉ pyWords (w.nextClassAt 0))
    (hpage : ServiceList.pagerActiveText w (w.nextTarget 0) = "" ∨
      ServiceList.pagerActiveText w (w.nextTarget 0) = ServiceList.pagerActiveText w 0)
    (hfp : ServiceList.firstRowFingerprint w (w.nextTarget 0) = "" ∨
      ServiceList.firstRowFingerprint w (w.nextTarget 0) = ServiceList.firstRowFingerprint w 0)
    (hfuel : 1 ≤ fuel) :
    ServiceList.read_all_pages_from_table w timeout fuel =
      some (.error (AlarmsAndEvents.simpleTimeoutMessage timeout none)) := by
  obtain ⟨f, rfl⟩ := Nat.exists_eq_succ_of_ne_zero (by omega : fuel ≠ 0)
  unfold ServiceList.read_all_pages_from_table
  rw [ServiceList.readAllPagesAux]
  rw [hpager]
  simp only [Bool.not_true, Bool.false_eq_true, if_false]
  have hclick : (ServiceList.click_next (w.nextClassAt 0)).1 = true := by
    unfold ServiceList.click_next
    rw [if_neg henabled]
  rw [if_neg (by rw [hclick]; intro h; cases h)]
  rw [if_neg ?_]
  push_neg
  constructor
  · intro hne
    rcases hpage with h | h
    · exact absurd h hne
    · exact h
  · intro hne
    rcases hfp with h | h
    · exact absurd h hne
    · exact h

/-- Witness for C6: on the concrete stuck table the reader raises the
`wait_until` timeout message. -/
theorem paginated_reader_stuck_page_witness :
    ServiceList.read_all_pages_from_table stuckWorld 12000 5 =
      some (.error (AlarmsAndEvents.simpleTimeoutMessage 12000 none)) :=
  paginated_reader_stuck_page stuckWorld 12000 5 rfl (by decide)
    (Or.inr rfl) (Or.inr rfl) (by norm_num)

/-- Claim C5 counterexample: the deduplication key used by
`read_all_pages_from_table` keeps the (column, value) pairs in dict
insertion order -- it is NOT "the full sorted (column, value) tuple
set": on the row `{"Severity": "High", "Alarm": "X"}` the key built by
the code differs from the sorted key the claim describes. -/
theorem paginated_reader_key_not_sorted :
    ServiceList.rowKey [("Severity", "High"), ("Alarm", "X")] =
      [("Severity", "High"), ("Alarm", "X")] ∧
    ServiceList.specSortedRowKey [("Severity", "High"), ("Alarm", "X")] =
      [("Alarm", "X"), ("Severity", "High")] ∧
    ServiceList.rowKey [("Severity", "High"), ("Alarm", "X")] ≠
      ServiceList.specSortedRowKey [("Severity", "High"), ("Alarm", "X")] :=
  ⟨by decide, by decide, by decide⟩
namespace ServiceList

theorem accumRows_spec (page : List (List (String × String))) :
    ∀ (seen acc : List (List (String × String))),
      (∀ r ∈ page, rowKey r ∉ seen) →
      (page.map rowKey).Nodup →
      accumRows page (seen, acc) = ((page.map rowKey).reverse ++ seen, acc ++ page) := by
  induction page with
  | nil => intro seen acc _ _; simp [accumRows]
  | cons r rest ih =>
    intro seen acc hdisj hnodup
    have hr : rowKey r ∉ seen := hdisj r (by simp)
    have step : accumRows (r :: rest) (seen, acc) =
        accumRows rest (rowKey r :: seen, acc ++ [r]) := by
      simp [accumRows, hr]
    rw [step, ih (rowKey r :: seen) (acc ++ [r]) ?_ ?_]
    · simp
    · intro r2 hr2
      simp only [List.mem_cons, not_or]
      constructor
      · intro heq
        simp only [List.map_cons, List.nodup_cons] at hnodup
        exact hnodup.1 (heq ▸ List.mem_map_of_mem rowKey hr2)
      · exact hdisj r2 (by simp [hr2])
    · simp only [List.map_cons, List.nodup_cons] at hnodup
      exact hnodup.2

theorem readAux_run (w : TableWorld) (timeout : ℤ) (pages : List (List (List String)))
    (hpager : w.pagerPresent = true)
    (hcells : ∀ s, s < pages.length → w.cellsAt s = pages.getD s [])
    (hdis : ∀ s, s < pages.length →
      ("disabled" ∈ pyWords (w.nextClassAt s) ↔ s + 1 = pages.length))
    (htarget : ∀ s, s + 1 < pages.length → w.nextTarget s = s + 1)
    (hactive : ∀ s, s + 1 < pages.length →
      pagerActiveText w (s + 1) ≠ "" ∧ pagerActiveText w (s + 1) ≠ pagerActiveText w s)
    (hkeys : ((pagesDicts w pages).flatten.map rowKey).Nodup) :
    ∀ (fuel n : ℕ), n < pages.length → pages.length ≤ fuel + n →
    readAllPagesAux w timeout fuel n
        ((((pagesDicts w pages).take n).flatten.map rowKey).reverse)
        ((pagesDicts w pages).take n).flatten =
      some (.ok (pagesDicts w pages).flatten) := by
  intro fuel
  induction fuel with
  | zero => intro n h1 h2; omega
  | succ fuel ih =>
    intro n hn hfuel
    set G := pagesDicts w pages with hG
    have hGlen : G.length = pages.length := by rw [hG]; simp [pagesDicts]
    have hnG : n < G.length := by omega
    have hdropn : G.drop n = G[n] :: G.drop (n + 1) := List.drop_eq_getElem_cons hnG
    have hGsplit : G = G.take n ++ (G[n] :: G.drop (n + 1)) := by
      rw [← hdropn, List.take_append_drop]
    have hsplit : G.flatten = (G.take n).flatten ++ (G[n] ++ (G.drop (n + 1)).flatten) := by
      calc G.flatten = (G.take n ++ G.drop n).flatten := by rw [List.take_append_drop]
        _ = (G.take n).flatten ++ (G.drop n).flatten := by rw [List.flatten_append]
        _ = (G.take n).flatten ++ (G[n] :: G.drop (n + 1)).flatten := by rw [hdropn]
        _ = (G.take n).flatten ++ (G[n] ++ (G.drop (n + 1)).flatten) := by
            rw [List.flatten_cons]
    have hkeys2 : (((G.take n).flatten.map rowKey) ++
        (G[n].map rowKey ++ ((G.drop (n + 1)).flatten.map rowKey))).Nodup := by
      rw [← List.map_append, ← List.map_append, ← hsplit]
      exact hkeys
    rw [List.nodup_append] at hkeys2
    have hGnNodup : (G[n].map rowKey).Nodup := by
      have h2 := hkeys2.2.1
      rw [List.nodup_append] at h2
      exact h2.1
    have hdisj : ∀ r ∈ G[n], rowKey r ∉ (((G.take n).flatten.map rowKey).reverse) := by
      intro r hr hmem
      rw [List.mem_reverse] at hmem
      exact hkeys2.2.2 hmem (by
        rw [List.mem_append]
        exact Or.inl (List.mem_map_of_mem rowKey hr))
    have hpageRows : read_table_as_dicts (extract_headers w.headerTexts) (w.cellsAt n) =
        G[n] := by
      rw [hcells n hn]
      simp only [hG, pagesDicts]
      rw [List.getElem_map, List.getD_eq_getElem pages [] hn]
    have htake : G.take (n + 1) = G.take n ++ [G[n]] :=
      (List.take_concat_get' G n hnG).symm
    rw [readAllPagesAux, hpager]
    simp only [Bool.not_true, Bool.false_eq_true, if_false]
    rw [hpageRows]
    rw [accumRows_spec G[n] _ _ hdisj hGnNodup]
    by_cases hlast : n + 1 = pages.length
    · have hdisabled : "disabled" ∈ pyWords (w.nextClassAt n) := (hdis n hn).mpr hlast
      have hclick : (click_next (w.nextClassAt n)).1 = false := by
        unfold click_next
        rw [if_pos hdisabled]
      rw [if_pos (by rw [hclick])]
      have htakeall : G.take (n + 1) = G := List.take_of_length_le (by omega)
      have hacc : (G.take n).flatten ++ G[n] = G.flatten := by
        calc (G.take n).flatten ++ G[n] = (G.take (n + 1)).flatten := by
              rw [htake, List.flatten_append, List.flatten_cons, List.flatten_nil,
                List.append_nil]
          _ = G.flatten := by rw [htakeall]
      rw [hacc]
    · have hn1 : n + 1 < pages.length := by omega
      have hnotdis : "disabled" ∉ pyWords (w.nextClassAt n) := by
        intro h
        exact hlast ((hdis n hn).mp h)
      have hclick : (click_next (w.nextClassAt n)).1 = true := by
        unfold click_next
        rw [if_neg hnotdis]
      rw [if_neg (by rw [hclick]; intro h; cases h)]
      rw [htarget n hn1]
      obtain ⟨hne, hdiff⟩ := hactive n hn1
      rw [if_pos (Or.inl ⟨hne, hdiff⟩)]
      have hseen : (G[n].map rowKey).reverse ++ (((G.take n).flatten.map rowKey).reverse) =
          (((G.take (n + 1)).flatten.map rowKey).reverse) := by
        rw [htake, List.flatten_append, List.flatten_cons, List.flatten_nil,
          List.append_nil, List.map_append, List.reverse_append]
      have hacc : (G.take n).flatten ++ G[n] = (G.take (n + 1)).flatten := by
        rw [htake, List.flatten_append, List.flatten_cons, List.flatten_nil,
          List.append_nil]
      rw [hseen, hacc]
      exact ih (n + 1) hn1 (by omega)
end ServiceList

theorem flatten_length_const {α : Type} (G : List (List α)) (R : ℕ)
    (h : ∀ p ∈ G, p.length = R) : G.flatten.length = G.length * R := by
  induction G with
  | nil => simp
  | cons p rest ih =>
    rw [List.flatten_cons, List.length_append, h p (by simp),
      ih (fun q hq => h q (by simp [hq]))]
    simp [Nat.succ_mul, Nat.add_comm]

/-- Claim C5 (amended): for every table of `P ≥ 1` pages with `R`
pairwise-distinct rows per page and no duplicate rows across pages
(distinct as the (column, cleaned value) keys the reader builds),
`read_all_pages_from_table` returns exactly the `P*R` row dicts of all
pages in order, with no duplicates -- deduplicating by the tuple of
(column, cleaned value) pairs in header (insertion) order of each row,
not by a sorted tuple set. -/
theorem paginated_reader_completeness
    (w : ServiceList.TableWorld) (timeout : ℤ) (pages : List (List (List String))) (R : ℕ)
    (hP : 1 ≤ pages.length)
    (hpager : w.pagerPresent = true)
    (hcells : ∀ s, s < pages.length → w.cellsAt s = pages.getD s [])
    (hdis : ∀ s, s < pages.length →
      ("disabled" ∈ pyWords (w.nextClassAt s) ↔ s + 1 = pages.length))
    (htarget : ∀ s, s + 1 < pages.length → w.nextTarget s = s + 1)
    (hactive : ∀ s, s + 1 < pages.length →
      ServiceList.pagerActiveText w (s + 1) ≠ "" ∧
      ServiceList.pagerActiveText w (s + 1) ≠ ServiceList.pagerActiveText w s)
    (hR : ∀ p ∈ pages, p.length = R)
    (hkeys : ((ServiceList.pagesDicts w pages).flatten.map ServiceList.rowKey).Nodup)
    (fuel : ℕ) (hfuel : pages.length ≤ fuel) :
    ServiceList.read_all_pages_from_table w timeout fuel =
      some (.ok (ServiceList.pagesDicts w pages).flatten) ∧
    (ServiceList.pagesDicts w pages).flatten.length = pages.length * R ∧
    (ServiceList.pagesDicts w pages).flatten.Nodup := by
  refine ⟨?_, ?_, List.Nodup.of_map ServiceList.rowKey hkeys⟩
  · unfold ServiceList.read_all_pages_from_table
    have h := ServiceList.readAux_run w timeout pages hpager hcells hdis htarget hactive hkeys
      fuel 0 (by omega) (by omega)
    simpa using h
  · rw [flatten_length_const (ServiceList.pagesDicts w pages) R ?_]
    · simp [ServiceList.pagesDicts]
    · intro p hp
      simp only [ServiceList.pagesDicts, List.mem_map] at hp
      obtain ⟨q, hq, rfl⟩ := hp
      simp [ServiceList.read_table_as_dicts, hR q hq]

/-- Witness for the amended C5: the reader returns both rows of the
concrete two-page table, `2 * 1` of them and duplicate-free. -/
theorem paginated_reader_completeness_witness :
    ServiceList.read_all_pages_from_table twoPageWorld 12000 3 =
      some (.ok (ServiceList.pagesDicts twoPageWorld twoPages).flatten) ∧
    (ServiceList.pagesDicts twoPageWorld twoPages).flatten.length = twoPages.length * 1 ∧
    (ServiceList.pagesDicts twoPageWorld twoPages).flatten.Nodup := by
  have h := paginated_reader_completeness twoPageWorld 12000 twoPages 1
    (by decide)
    rfl
    (by intro s hs; have h2 : s < 2 := by simpa [twoPages] using hs
        interval_cases s <;> rfl)
    (by intro s hs; have h2 : s < 2 := by simpa [twoPages] using hs
        interval_cases s <;> simp [twoPages] <;> decide)
    (by intro s hs
        have h2 : s = 0 := by simp [twoPages] at hs; omega
        subst h2; rfl)
    (by intro s hs
        have h2 : s = 0 := by simp [twoPages] at hs; omega
        subst h2; exact ⟨by decide, by decide⟩)
    (by intro p hp; fin_cases hp <;> rfl)
    (by decide)
    3 (by decide)
  exact h

theorem cyc_no_return : ∀ (fuel s : ℕ)
    (seen acc : List (List (String × String))),
    ServiceList.readAllPagesAux cycWorld 12000 fuel s seen acc = none := by
  intro fuel
  induction fuel with
  | zero => intro s seen acc; rfl
  | succ fuel ih =>
    intro s seen acc
    rw [ServiceList.readAllPagesAux]
    have hpager : cycWorld.pagerPresent = true := rfl
    rw [hpager]
    simp only [Bool.not_true, Bool.false_eq_true, if_false]
    have hclick : (ServiceList.click_next (cycWorld.nextClassAt s)).1 = true := by
      have hcls : cycWorld.nextClassAt s = "page-item" := rfl
      rw [hcls]
      decide
    rw [if_neg (by rw [hclick]; intro h; cases h)]
    have hactive : ∀ t, ServiceList.pagerActiveText cycWorld t =
        if t % 2 = 0 then "1" else "2" := by
      intro t
      unfold ServiceList.pagerActiveText cycWorld
      by_cases ht : t % 2 = 0 <;> simp [ht] <;> decide
    have hcond : ServiceList.pagerActiveText cycWorld (cycWorld.nextTarget s) ≠ "" ∧
        ServiceList.pagerActiveText cycWorld (cycWorld.nextTarget s) ≠
          ServiceList.pagerActiveText cycWorld s := by
      have hT : cycWorld.nextTarget s = s + 1 := rfl
      rw [hT, hactive (s + 1), hactive s]
      rcases Nat.even_or_odd s with he | ho
      · have h0 : s % 2 = 0 := Nat.even_iff.mp he
        have h1 : (s + 1) % 2 = 1 := by omega
        rw [h0, h1]
        exact ⟨by decide, by decide⟩
      · have h0 : s % 2 = 1 := Nat.odd_iff.mp ho
        have h1 : (s + 1) % 2 = 0 := by omega
        rw [h0, h1]
        exact ⟨by decide, by decide⟩
    rw [if_pos (Or.inl hcond)]
    exact ih _ _ _

/-- Claim C7 counterexample: on the cyclic table, whose Next control is
always enabled and whose content changes at every click,
`read_all_pages_from_table` (a `while True` loop with no iteration
cap) never returns, however much fuel it is given: the page-advance
loop does not terminate for every input table. -/
theorem paginated_reader_bounded_iteration_counterexample :
    ¬ ∃ (fuel : ℕ) (r : ServiceList.ReadResult),
      ServiceList.read_all_pages_from_table cycWorld 12000 fuel = some r := by
  rintro ⟨fuel, r, h⟩
  rw [ServiceList.read_all_pages_from_table, cyc_no_return] at h
  cases h
namespace AlarmsAndEvents

theorem geLoop_adv_le (w : EventsWorld) : ∀ (iters s : ℕ)
    (seen acc : List (List (String × EVal))) (adv : ℕ),
    (geLoop w iters s seen acc adv).2 ≤ adv + iters := by
  intro iters
  induction iters with
  | zero => intro s seen acc adv; simp [geLoop]
  | succ iters ih =>
    intro s seen acc adv
    rw [geLoop]
    by_cases hd : w.nextDisabledAt s
    · simp [hd]
    · simp only [hd, if_false, Bool.false_eq_true]
      by_cases hc : cleanStr (w.snapshotAt (w.nextTarget s)) ≠ cleanStr (w.snapshotAt s)
      · rw [if_pos hc]
        calc (geLoop w iters (w.nextTarget s) _ _ (adv + 1)).2 ≤ (adv + 1) + iters :=
              ih _ _ _ _
          _ = adv + (iters + 1) := by omega
      · rw [if_neg hc]
        omega
end AlarmsAndEvents

theorem readAux_terminates_of_disabled_reachable (w : ServiceList.TableWorld) (timeout : ℤ) :
    ∀ (fuel s : ℕ) (seen acc : List (List (String × String))),
      (∃ k, k < fuel ∧ "disabled" ∈ pyWords (w.nextClassAt ((w.nextTarget)^[k] s))) →
      ServiceList.readAllPagesAux w timeout fuel s seen acc ≠ none := by
  intro fuel
  induction fuel with
  | zero => intro s seen acc ⟨k, hk, _⟩; omega
  | succ fuel ih =>
    intro s seen acc ⟨k, hk, hdis⟩
    rw [ServiceList.readAllPagesAux]
    by_cases hp : w.pagerPresent = true
    · rw [hp]
      simp only [Bool.not_true, Bool.false_eq_true, if_false]
      by_cases hc : (ServiceList.click_next (w.nextClassAt s)).1 = false
      · rw [if_pos hc]
        intro h
        cases h
      · rw [if_neg hc]
        have hnotdis : "disabled" ∉ pyWords (w.nextClassAt s) := by
          intro hmem
          apply hc
          unfold ServiceList.click_next
          rw [if_pos hmem]
        have hk0 : k ≠ 0 := by
          intro h0
          rw [h0] at hdis
          exact hnotdis (by simpa using hdis)
        obtain ⟨m, rfl⟩ := Nat.exists_eq_succ_of_ne_zero hk0
        by_cases hcond : (ServiceList.pagerActiveText w (w.nextTarget s) ≠ "" ∧
            ServiceList.pagerActiveText w (w.nextTarget s) ≠ ServiceList.pagerActiveText w s) ∨
            (ServiceList.firstRowFingerprint w (w.nextTarget s) ≠ "" ∧
            ServiceList.firstRowFingerprint w (w.nextTarget s) ≠
              ServiceList.firstRowFingerprint w s)
        · rw [if_pos hcond]
          apply ih
          refine ⟨m, by omega, ?_⟩
          rw [← Function.iterate_succ_apply]
          exact hdis
        · rw [if_neg hcond]
          intro h
          cases h
    · have hp2 : w.pagerPresent = false := by
        cases hq : w.pagerPresent
        · rfl
        · exact absurd hq hp
      rw [hp2]
      simp only [Bool.not_false, if_true]
      intro h
      cases h

/-- Claim C7 (amended): the page-advance loop of
`AlarmsAndEvents.get_all_events` performs at most `max_pages` advances
on every input table, so the number of pages it reads is bounded by
the fixed cap; `ServiceList.read_all_pages_from_table`, by contrast,
has no iteration cap -- its loop terminates whenever a state with a
disabled Next control is reachable within the available iterations
(and likewise on pager absence or a stuck fingerprint), but, per the
counterexample, not on every table. -/
theorem paginated_reader_bounded_iteration_amended
    (w : AlarmsAndEvents.EventsWorld) (mp : ℕ)
    (w2 : ServiceList.TableWorld) (timeout : ℤ) (n fuel : ℕ)
    (hdis : "disabled" ∈ pyWords (w2.nextClassAt ((w2.nextTarget)^[n] 0)))
    (hfuel : n < fuel) :
    (AlarmsAndEvents.get_all_events w mp).2 ≤ mp ∧
    ServiceList.read_all_pages_from_table w2 timeout fuel ≠ none := by
  constructor
  · unfold AlarmsAndEvents.get_all_events
    by_cases hn : w.nextPresent = true
    · rw [hn]
      simpa using AlarmsAndEvents.geLoop_adv_le w mp 0 _ _ 0
    · have hn2 : w.nextPresent = false := by
        cases hq : w.nextPresent
        · rfl
        · exact absurd hq hn
      rw [hn2]
      simp
  · exact readAux_terminates_of_disabled_reachable w2 timeout fuel 0 [] [] ⟨n, hfuel, hdis⟩

/-- Witness for the amended C7: the capped loop performs no advance on
the one-shot events table, and the reader returns on the concrete
two-page table whose second state carries a disabled Next control. -/
theorem paginated_reader_bounded_iteration_amended_witness :
    (AlarmsAndEvents.get_all_events oneShotEventsWorld 10).2 ≤ 10 ∧
    ServiceList.read_all_pages_from_table twoPageWorld 12000 3 ≠ none :=
  paginated_reader_bounded_iteration_amended oneShotEventsWorld 10 twoPageWorld 12000 1 3
    (by decide) (by norm_num)
namespace AlarmsAndEvents

example : virtWin.renderedAt 0 = [0, 1] := by decide

example : virtWin.renderedAt 20 = [2, 3] := by decide

example : virtWin.renderedAt 30 = [3, 4] := by decide

/-- Claim C8 counterexample: on the virtualized 4-row list rendered 2
at a time, the select-all routine reports success (`wait_until`
returns silently) although device 2 is still unchecked: both passes
skip the first rendered row of every scroll window (meant to be the
"All" sentinel, but under virtualization it is a real device row), so
"all N rows reporting checked" and "report failure if any unchecked
row remains" both fail. -/
theorem virtual_selector_convergence_counterexample :
    (set_all_devices_filterBy_devices virtWin [false, false, false, false]).2 = true ∧
    (set_all_devices_filterBy_devices virtWin [false, false, false, false]).1 =
      [true, false, true, true] ∧
    (set_all_devices_filterBy_devices virtWin [false, false, false, false]).1 ≠
      List.replicate 4 true :=
  ⟨by decide, by decide, by decide⟩

theorem getD_replicate_true (N j : ℕ) : (List.replicate N true).getD j true = true := by
  by_cases hj : j < N
  · rw [List.getD_eq_getElem _ _ (by simpa using hj)]
    simp
  · rw [List.getD_eq_default]
    simpa using Nat.le_of_not_lt hj

theorem clickAll_alltrue (r : List ℕ) (N : ℕ) :
    clickAllVisibleUnchecked r (List.replicate N true) = List.replicate N true := by
  unfold clickAllVisibleUnchecked
  induction r.drop 1 with
  | nil => rfl
  | cons idx rest ih =>
    rw [List.foldl_cons]
    by_cases h0 : idx = 0
    · rw [if_pos h0]
      exact ih
    · rw [if_neg h0, if_pos (getD_replicate_true N (idx - 1))]
      exact ih

theorem anyUnchecked_alltrue (r : List ℕ) (N : ℕ) :
    anyUncheckedVisible r (List.replicate N true) = false := by
  unfold anyUncheckedVisible
  rw [List.any_eq_false]
  intro idx _
  by_cases h0 : idx = 0
  · rw [if_pos h0]
    decide
  · rw [if_neg h0, getD_replicate_true N (idx - 1)]
    decide

theorem pass1_alltrue (w : VirtWorld) (N : ℕ) : ∀ (fuel : ℕ) (top last : ℤ),
    pass1 w fuel top last (List.replicate N true) = List.replicate N true := by
  intro fuel
  induction fuel with
  | zero => intro top last; rfl
  | succ fuel ih =>
    intro top last
    rw [pass1]
    simp only [clickAll_alltrue]
    split_ifs <;> first | rfl | exact ih _ _

theorem pass2_alltrue (w : VirtWorld) (N : ℕ) : ∀ (fuel : ℕ) (top last : ℤ),
    pass2 w fuel top last (List.replicate N true) = true := by
  intro fuel
  induction fuel with
  | zero => intro top last; rfl
  | succ fuel ih =>
    intro top last
    rw [pass2]
    simp only [anyUnchecked_alltrue, Bool.false_eq_true, if_false, Bool.not_false]
    split_ifs <;> first | rfl | exact ih _ _

theorem set_append_middle (l1 l2 : List Bool) (x a : Bool) :
    (l1 ++ x :: l2).set l1.length a = l1 ++ a :: l2 := by
  induction l1 with
  | nil => rfl
  | cons c rest ih => simp [List.set, ih]

theorem getD_append_middle (l1 l2 : List Bool) (x : Bool) :
    (l1 ++ x :: l2).getD l1.length true = x := by
  induction l1 with
  | nil => rfl
  | cons c rest ih => simpa using ih

theorem foldl_click_range_succ : ∀ (k : ℕ) (ch : List Bool), k ≤ ch.length →
    ((List.range k).map Nat.succ).foldl
      (fun ch idx =>
        if idx = 0 then ch
        else if ch.getD (idx - 1) true then ch
        else ch.set (idx - 1) true)
      ch = List.replicate k true ++ ch.drop k := by
  intro k
  induction k with
  | zero => intro ch _; simp
  | succ k ih =>
    intro ch hk
    rw [List.range_succ, List.map_append, List.foldl_append, ih ch (by omega)]
    have hklen : k < ch.length := by omega
    have hdrop : ch.drop k = ch[k] :: ch.drop (k + 1) := List.drop_eq_getElem_cons hklen
    simp only [List.map_cons, List.map_nil, List.foldl_cons, List.foldl_nil]
    rw [if_neg (Nat.succ_ne_zero k)]
    have hidx : Nat.succ k - 1 = k := by omega
    rw [hidx]
    have hgetD : (List.replicate k true ++ ch.drop k).getD k true = ch[k] := by
      rw [hdrop]
      have h2 := getD_append_middle (List.replicate k true) (ch.drop (k + 1)) ch[k]
      simpa using h2
    rw [hgetD]
    have hrepl : List.replicate (k + 1) true = List.replicate k true ++ [true] := by
      rw [List.replicate_succ']
    by_cases hck : ch[k] = true
    · rw [if_pos hck, hdrop, hck, hrepl]
      simp
    · have hck2 : ch[k] = false := by
        cases h2 : ch[k]
        · rfl
        · exact absurd h2 hck
      rw [hck2, if_neg (by simp), hdrop]
      have h3 := set_append_middle (List.replicate k true) (ch.drop (k + 1)) ch[k] true
      simp only [List.length_replicate] at h3
      rw [h3, hrepl]
      simp
end AlarmsAndEvents

theorem clickAll_full (N : ℕ) (ch : List Bool) (hlen : ch.length = N) :
    AlarmsAndEvents.clickAllVisibleUnchecked (List.range (N + 1)) ch =
      List.replicate N true := by
  unfold AlarmsAndEvents.clickAllVisibleUnchecked
  have hdrop : (List.range (N + 1)).drop 1 = (List.range N).map Nat.succ := by
    rw [List.range_succ_eq_map]
    rfl
  rw [hdrop, AlarmsAndEvents.foldl_click_range_succ N ch (by omega)]
  rw [show ch.drop N = [] from List.drop_eq_nil_of_le (by omega)]
  simp

/-- Claim C8 (amended): on a scroll-clipped list whose rows all remain
attached to the DOM (the application dropdown: simplebar clips
visually but does not virtualize), the select-all routine checks all
`N` device rows on its first sweep and the verification pass reports
success, for every viewport and row geometry; under true
virtualization the routine can skip the first rendered row of a
window in both passes (see the counterexample), so convergence is
only guaranteed without virtualization. -/
theorem virtual_selector_convergence_amended (N : ℕ) (h C : ℤ) (checked0 : List Bool)
    (hlen : checked0.length = N) :
    AlarmsAndEvents.set_all_devices_filterBy_devices (AlarmsAndEvents.fullDomWorld N h C)
      checked0 = (List.replicate N true, true) := by
  unfold AlarmsAndEvents.set_all_devices_filterBy_devices
    AlarmsAndEvents.all_selected_across_scroll
  have hpass1 : AlarmsAndEvents.pass1 (AlarmsAndEvents.fullDomWorld N h C)
      AlarmsAndEvents.MAX_SCROLL_PAGES 0 (-1) checked0 = List.replicate N true := by
    rw [show AlarmsAndEvents.MAX_SCROLL_PAGES = 59 + 1 from rfl, AlarmsAndEvents.pass1]
    have hclick : AlarmsAndEvents.clickAllVisibleUnchecked
        ((AlarmsAndEvents.fullDomWorld N h C).renderedAt 0) checked0 =
        List.replicate N true := clickAll_full N checked0 hlen
    simp only [hclick]
    split_ifs <;> first | rfl | exact AlarmsAndEvents.pass1_alltrue _ N _ _ _
  rw [hpass1]
  simp only [AlarmsAndEvents.pass2_alltrue]

/-- Witness for the amended C8: three unchecked rows in a full-DOM
menu all end up checked and the verification reports success. -/
theorem virtual_selector_convergence_amended_witness :
    AlarmsAndEvents.set_all_devices_filterBy_devices (AlarmsAndEvents.fullDomWorld 3 10 20)
      [false, false, false] = (List.replicate 3 true, true) :=
  virtual_selector_convergence_amended 3 10 20 [false, false, false] rfl

/-- Claim C9: on the login screen (post-login anchor not visible), a
username shorter than 8 characters makes `login` return `False` after
filling only the username and checking the button disabled -- no
password fill, no click; a password shorter than 8 characters (with a
long-enough username) makes it return `False` with no click; and the
Login button is clicked only when both credentials are at least 8
characters long (universally, over every world and input). -/
theorem login_input_length_gate (w : LoginPage.LoginWorld) (u p : String)
    (hanchor : w.postLoginVisible = false) :
    (u.length < 8 → w.btnDisabledAfterUsername u = true →
      LoginPage.login w u p = (.ok false, ⟨true, false, false⟩))
    ∧ (8 ≤ u.length → p.length < 8 →
      LoginPage.login w u p = (.ok false, ⟨true, true, false⟩))
    ∧ (∀ (w2 : LoginPage.LoginWorld) (u2 p2 : String),
      (LoginPage.login w2 u2 p2).2.clickedLogin = true →
      8 ≤ u2.length ∧ 8 ≤ p2.length) := by
  refine ⟨?_, ?_, ?_⟩
  · intro hu hbtn
    unfold LoginPage.login
    rw [hanchor, if_neg (by intro h; cases h), if_pos hu, if_pos hbtn]
  · intro hu hp
    unfold LoginPage.login
    rw [hanchor, if_neg (by intro h; cases h), if_neg (by omega), if_pos hp]
  · intro w2 u2 p2 hclick
    unfold LoginPage.login at hclick
    by_cases h1 : w2.postLoginVisible = true
    · rw [if_pos h1] at hclick
      cases hclick
    · rw [if_neg h1] at hclick
      by_cases h2 : u2.length < 8
      · rw [if_pos h2] at hclick
        by_cases h3 : w2.btnDisabledAfterUsername u2 = true
        · rw [if_pos h3] at hclick
          cases hclick
        · rw [if_neg h3] at hclick
          cases hclick
      · rw [if_neg h2] at hclick
        by_cases h4 : p2.length < 8
        · rw [if_pos h4] at hclick
          cases hclick
        · rw [if_neg h4] at hclick
          constructor
          · omega
          · omega

/-- Witness for C9: the short username `"admin"` is rejected without a
password fill or click; the short password is rejected without a
click; the clicked-implies-long-credentials part applied at a
successful login. -/
theorem login_input_length_gate_witness :
    LoginPage.login strictWorld "admin" "longenough" =
      (.ok false, ⟨true, false, false⟩) ∧
    LoginPage.login strictWorld "admin123" "short" =
      (.ok false, ⟨true, true, false⟩) ∧
    (8 : ℕ) ≤ "admin123".length ∧ (8 : ℕ) ≤ "longenough".length := by
  have h1 := (login_input_length_gate strictWorld "admin" "longenough" rfl).1
    (by decide) (by decide)
  have h2 := (login_input_length_gate strictWorld "admin123" "short" rfl).2.1
    (by decide) (by decide)
  have h3 := (login_input_length_gate strictWorld "admin123" "longenough" rfl).2.2
    strictWorld "admin123" "longenough" (by decide)
  exact ⟨h1, h2, h3.1, h3.2⟩

/-- Claim C10: whenever the Next (respectively Previous) page-item
class carries the `disabled` token, `click_next` (respectively
`click_previous`) returns `False` and performs no click, leaving the
page untouched; when the token is absent it clicks and returns `True`;
in both cases the returned boolean equals the performed-click flag. -/
theorem pagination_click_noop_on_disabled (nextCls prevCls : String) :
    ("disabled" ∈ pyWords nextCls → ServiceList.click_next nextCls = (false, false))
    ∧ ("disabled" ∉ pyWords nextCls → ServiceList.click_next nextCls = (true, true))
    ∧ ("disabled" ∈ pyWords prevCls → ServiceList.click_previous prevCls = (false, false))
    ∧ ("disabled" ∉ pyWords prevCls → ServiceList.click_previous prevCls = (true, true))
    ∧ (ServiceList.click_next nextCls).1 = (ServiceList.click_next nextCls).2
    ∧ (ServiceList.click_previous prevCls).1 = (ServiceList.click_previous prevCls).2 := by
  unfold ServiceList.click_next ServiceList.click_previous
  refine ⟨fun h => by rw [if_pos h], fun h => by rw [if_neg h],
    fun h => by rw [if_pos h], fun h => by rw [if_neg h], ?_, ?_⟩
  · by_cases h : "disabled" ∈ pyWords nextCls
    · rw [if_pos h]
    · rw [if_neg h]
  · by_cases h : "disabled" ∈ pyWords prevCls
    · rw [if_pos h]
    · rw [if_neg h]

/-- Witness for C10: the class string `"page-item disabled"` suppresses
the click of both controls, and `"page-item"` allows it. -/
theorem pagination_click_noop_on_disabled_witness :
    ServiceList.click_next "page-item disabled" = (false, false) ∧
    ServiceList.click_previous "page-item disabled" = (false, false) ∧
    ServiceList.click_next "page-item" = (true, true) := by
  have h := pagination_click_noop_on_disabled "page-item disabled" "page-item disabled"
  have h2 := pagination_click_noop_on_disabled "page-item" "page-item"
  exact ⟨h.1 (by decide), h.2.2.1 (by decide), h2.2.1 (by decide)⟩
